import Mathlib

/-!
A shallow embedding of the Boomie synthesizer's audio render pipeline
(waveform oscillator, ADSR envelope, note parser, effects chain, offline
renderer, realtime playback context), together with theorems settling the
specification's claims against it.

Modelling conventions:
* `f32` arithmetic is modelled by exact rational arithmetic (`ℚ`); the
  oscillator is additionally modelled over `ℝ` where trigonometric
  identities are needed.
* Rust strings are modelled as lists of characters (`List Char`); for the
  ASCII inputs relevant here, byte indexing and char indexing agree.
* The `f32` sine/cosine intrinsics used by the biquad filter and the `Sine`
  oscillator of the rational model are abstracted as function parameters
  `sinF cosF : ℚ → ℚ`; the global `fastrand` noise source is abstracted as
  an oracle `noise : ℕ → ℚ` consumed at an explicitly threaded index.
* `HashMap` fields are modelled as functions into `Option`.
-/

namespace Boomie

/-- Rust's `x as usize` cast on a float: truncation toward zero, saturating
at zero for negative inputs (for nonnegative `x` this is the floor). -/
def f32ToUsize (x : ℚ) : ℕ := (Int.floor x).toNat

/-- Rust float remainder `x % 1.0`: the result has the sign of the dividend. -/
def qRem1 (x : ℚ) : ℚ := if 0 ≤ x then x - Int.floor x else x - Int.ceil x

/-- `str::trim`: drop whitespace from both ends of a character list. -/
def trimChars (l : List Char) : List Char :=
  ((l.dropWhile Char.isWhitespace).reverse.dropWhile Char.isWhitespace).reverse

/-- `str::split(sep)`: split at every separator, keeping empty pieces. -/
def splitOnChar (sep : Char) (l : List Char) : List (List Char) :=
  l.foldr
    (fun c acc =>
      if c = sep then [] :: acc
      else
        match acc with
        | [] => [[c]]
        | h :: t => (c :: h) :: t)
    [[]]

/-- `str::split_once(sep)`: split at the first separator only. -/
def splitOnce (sep : Char) : List Char → Option (List Char × List Char)
  | [] => none
  | c :: t =>
    if c = sep then some ([], t)
    else (splitOnce sep t).map (fun p => (c :: p.1, p.2))

/-- `str::strip_prefix`: remove a literal leading pattern when present. -/
def strip? : List Char → List Char → Option (List Char)
  | [], l => some l
  | _ :: _, [] => none
  | p :: ps, c :: cs => if p = c then strip? ps cs else none

/-- Accumulate a decimal digit string into a natural number. -/
def digitsToNat (l : List Char) : ℕ :=
  l.foldl (fun a c => a * 10 + (c.toNat - 48)) 0

/-- `str::parse::<i32>`: optional sign followed by one or more digits
(integer overflow is not modelled). -/
def parseI32 (l : List Char) : Option ℤ :=
  match l with
  | [] => none
  | c :: rest =>
    if c = '-' then
      if rest ≠ [] ∧ rest.all Char.isDigit then some (-(digitsToNat rest : ℤ))
      else none
    else if c = '+' then
      if rest ≠ [] ∧ rest.all Char.isDigit then some ((digitsToNat rest : ℤ))
      else none
    else if (c :: rest).all Char.isDigit then some ((digitsToNat (c :: rest) : ℤ))
    else none

/-- The error taxonomy of `src/error.rs`. -/
inductive SynthError where
  | ParseError (msg : String)
  | FileError (msg : String)
  | AudioError (msg : String)
  | InvalidInstrument (msg : String)
deriving DecidableEq, Repr

deriving instance DecidableEq for Except

/-! ## Note parser (`src/utils.rs`, `parse_note`) -/

/-- Base frequency of a note letter at octave 0 (the `match` at the top of
`parse_note`); `none` models the early `Err(ParseError)` return. -/
def noteBase : Char → Option ℚ
  | 'C' => some 16.35
  | 'D' => some 18.35
  | 'E' => some 20.60
  | 'F' => some 21.83
  | 'G' => some 24.50
  | 'A' => some 27.50
  | 'B' => some 30.87
  | _ => none

/-- Is this (already uppercased) character an accidental marker? -/
def isAccidentalChar (c : Char) : Bool :=
  c == '#' || c == 'S' || c == 'B' || c == 'F'

/-- Frequency multiplier of an accidental character. -/
def accFactor (c : Char) : ℚ :=
  if c = '#' ∨ c = 'S' then 1.059463
  else if c = 'B' ∨ c = 'F' then 0.943874
  else 1

/-- Octave multiplier: `2^octave` when the trimmed octave string parses as
an `i32`, `1` otherwise (`parse_note` silently ignores a bad octave). -/
def octFactor (l : List Char) : ℚ :=
  let t := trimChars l
  if t = [] then 1
  else
    match parseI32 t with
    | some o => (2 : ℚ) ^ o
    | none => 1

/-- `parse_note` of `src/utils.rs`: uppercase the input, read the note
letter, an optional accidental, and an optional octave. -/
def parseNote (l : List Char) : Except SynthError ℚ :=
  let u := l.map Char.toUpper
  match u with
  | [] => .error (.ParseError "Invalid note")
  | c :: rest =>
    match noteBase c with
    | none => .error (.ParseError "Invalid note")
    | some base =>
      let hasAcc :=
        match rest.head? with
        | some c2 => isAccidentalChar c2
        | none => false
      let f1 := if hasAcc then base * accFactor (rest.headD ' ') else base
      let octaveStr := if hasAcc then rest.drop 1 else rest
      .ok (f1 * octFactor octaveStr)

/-- First character of the input, uppercased. -/
def headUpper (l : List Char) : Option Char := l.head?.map Char.toUpper

/-- The accidental multiplier contributed by the input's second character. -/
def accPart (l : List Char) : ℚ :=
  match ((l.map Char.toUpper).drop 1).head? with
  | some c2 => if isAccidentalChar c2 then accFactor c2 else 1
  | none => 1

/-- The octave multiplier contributed by the input after letter and
accidental. -/
def octPart (l : List Char) : ℚ :=
  let u := l.map Char.toUpper
  let hasAcc :=
    match (u.drop 1).head? with
    | some c2 => isAccidentalChar c2
    | none => false
  octFactor (u.drop (if hasAcc then 2 else 1))

/-! ## Score data model (`src/instrument.rs`, `src/track.rs`,
`src/arrangement.rs`, `src/effects.rs` parameter structs) -/

inductive WaveformType where
  | Sine
  | Square
  | Triangle
  | Sawtooth
  | Noise
deriving DecidableEq, Repr

structure SampleData where
  samples : List ℚ
  sample_rate : ℕ
deriving DecidableEq, Repr

inductive InstrumentSource where
  | Synthesized (w : WaveformType)
  | Sample (s : SampleData)
deriving DecidableEq, Repr

structure ReverbParams where
  room_size : ℚ
  damping : ℚ
  wet : ℚ
  width : ℚ
deriving DecidableEq, Repr

structure DelayParams where
  time : ℚ
  feedback : ℚ
  wet : ℚ
deriving DecidableEq, Repr

structure DistortionParams where
  drive : ℚ
  tone : ℚ
  wet : ℚ
deriving DecidableEq, Repr

inductive FilterType where
  | LowPass
  | HighPass
  | BandPass
deriving DecidableEq, Repr

structure FilterParams where
  cutoff : ℚ
  resonance : ℚ
  filter_type : FilterType
deriving DecidableEq, Repr

structure EffectsChain where
  reverb : Option ReverbParams
  delay : Option DelayParams
  distortion : Option DistortionParams
  filter : Option FilterParams
deriving DecidableEq, Repr

/-- `EffectsChain::has_any`. -/
def EffectsChain.has_any (e : EffectsChain) : Bool :=
  e.reverb.isSome || e.delay.isSome || e.distortion.isSome || e.filter.isSome

/-- `EffectsChain::default`: all four effects absent. -/
def EffectsChain.empty : EffectsChain := ⟨none, none, none, none⟩

structure Instrument where
  name : List Char
  source : InstrumentSource
  attack : ℚ
  decay : ℚ
  sustain : ℚ
  release : ℚ
  volume : ℚ
  pitch : ℚ
  pan : ℚ
  detune : ℚ
  effects : EffectsChain
deriving DecidableEq, Repr

/-- `Instrument::default`. -/
def Instrument.base : Instrument where
  name := []
  source := .Synthesized .Sine
  attack := 0.01
  decay := 0.1
  sustain := 0.8
  release := 0.2
  volume := 0.5
  pitch := 1
  pan := 0
  detune := 0
  effects := EffectsChain.empty

structure Note where
  pitch : ℚ
  duration : ℚ
  velocity : ℚ
  pan : Option ℚ
  slide_to : Option ℚ
deriving DecidableEq, Repr

structure Chord where
  pitches : List ℚ
  duration : ℚ
  velocity : ℚ
deriving DecidableEq, Repr

inductive SequenceElement where
  | Note (n : Note)
  | Chord (c : Chord)
  | Rest (duration : ℚ)
deriving DecidableEq, Repr

/-- `LoopPoint`; the Rust field `end` is renamed `stop` (`end` is a Lean
keyword). -/
structure LoopPoint where
  start : ℚ
  stop : ℚ
deriving DecidableEq, Repr

structure MelodyTrack where
  name : List Char
  instrument : Instrument
  sequence : List SequenceElement
  tempo : ℚ
  length : ℚ
  loop_point : Option LoopPoint
  time_signature : ℕ × ℕ
  swing : ℚ
deriving DecidableEq, Repr

structure TrackOverrides where
  volume : Option ℚ
  pitch : Option ℚ
  tempo : Option ℚ
  pan : Option ℚ
  reverb : Option ReverbParams
  delay : Option DelayParams
  distortion : Option DistortionParams
  filter : Option FilterParams
deriving DecidableEq, Repr

/-- `TrackOverrides::default`. -/
def TrackOverrides.base : TrackOverrides :=
  ⟨none, none, none, none, none, none, none, none⟩

structure Arrangement where
  name : List Char
  tracks : List (MelodyTrack × ℚ × TrackOverrides)
  total_length : ℚ
  loop_point : Option LoopPoint
  master_tempo : Option ℚ
  fade_in : Option ℚ
  fade_out : Option ℚ
deriving DecidableEq, Repr

/-- `DynamicParameters` of `src/engine.rs`; the two `HashMap` fields are
modelled as functions into `Option`. -/
structure DynamicParameters where
  master_volume : ℚ
  master_pitch : ℚ
  track_volumes : List Char → Option ℚ
  track_enabled : List Char → Option Bool
  crossfade_duration : ℚ

/-- `DynamicParameters::default`. -/
def DynamicParameters.base : DynamicParameters :=
  ⟨1, 1, fun _ => none, fun _ => none, 1⟩

/-! ## Waveform oscillator (`src/waveform.rs`) -/

/-- Stands for the `f32` constant `std::f32::consts::TAU`; its exact value
is irrelevant to every claim because the sine intrinsic is abstract. -/
def tauQ : ℚ := 6.2831855

/-- Rust float remainder `x % 1.0` over ℝ. -/
noncomputable def rRem1 (x : ℝ) : ℝ :=
  if 0 ≤ x then x - Int.floor x else x - Int.ceil x

/-- `WaveformType::generate_sample` over an idealised real model: `sin` is
the exact real sine (the code multiplies the phase by `TAU = 2π`) and the
single `fastrand` draw of the `Noise` arm is abstracted as `nz`. -/
noncomputable def generateSampleR (nz : ℝ) (w : WaveformType) (phase : ℝ) : ℝ :=
  match w with
  | .Sine => Real.sin (phase * (2 * Real.pi))
  | .Square => if rRem1 (phase * 2) < 0.5 then 1 else -1
  | .Sawtooth => rRem1 (phase * 2) * 2 - 1
  | .Noise => nz * 2 - 1
  | .Triangle =>
    let p := rRem1 (phase * 2)
    if p < 0.5 then p * 4 - 1 else 3 - p * 4

/-- `WaveformType::generate_sample` over the rational model: the `f32`
sine intrinsic is abstracted as `sinF`, and `Noise` consumes one value of
the `noise` oracle at index `k` (mirroring the process-wide RNG); returns
the sample together with the next oracle index. -/
def generateSample (sinF : ℚ → ℚ) (noise : ℕ → ℚ) (w : WaveformType)
    (phase : ℚ) (k : ℕ) : ℚ × ℕ :=
  match w with
  | .Sine => (sinF (phase * tauQ), k)
  | .Square => (if qRem1 (phase * 2) < 0.5 then 1 else -1, k)
  | .Sawtooth => (qRem1 (phase * 2) * 2 - 1, k)
  | .Noise => (noise k * 2 - 1, k + 1)
  | .Triangle =>
    let p := qRem1 (phase * 2)
    (if p < 0.5 then p * 4 - 1 else 3 - p * 4, k)

/-! ## ADSR envelope (`src/engine.rs`, `calculate_envelope_static`) -/

/-- `SynthEngine::calculate_envelope_static`. -/
def calculateEnvelopeStatic (time duration : ℚ) (instr : Instrument) : ℚ :=
  let attack_end := instr.attack
  let decay_end := attack_end + instr.decay
  let release_start := duration - instr.release
  if time < attack_end then time / attack_end
  else if time < decay_end then
    let decay_progress := (time - attack_end) / instr.decay
    1 - decay_progress * (1 - instr.sustain)
  else if time < release_start then instr.sustain
  else
    let release_progress := (time - release_start) / instr.release
    instr.sustain * (1 - release_progress)

/-- The four-branch piecewise ADSR definition, written from the words of
§4.2 of the spec, for comparison with `calculateEnvelopeStatic`. -/
def specEnvelope (t d : ℚ) (instr : Instrument) : ℚ :=
  let attack_end := instr.attack
  let decay_end := instr.attack + instr.decay
  let release_start := d - instr.release
  if t < attack_end then t / instr.attack
  else if t < decay_end then
    1 - ((t - instr.attack) / instr.decay) * (1 - instr.sustain)
  else if t < release_start then instr.sustain
  else instr.sustain * (1 - (t - release_start) / instr.release)

/-! ## Sample interpolator (`src/engine.rs`, `interpolate_sample`) -/

/-- `SynthEngine::interpolate_sample`. -/
def interpolateSample (sd : SampleData) (time_in_note pitch_rate : ℚ) : ℚ :=
  let src_pos := time_in_note * (sd.sample_rate : ℚ) * pitch_rate
  let src_idx := f32ToUsize src_pos
  if sd.samples.length ≤ src_idx then 0
  else if src_idx < sd.samples.length - 1 then
    let frac := src_pos - (src_idx : ℚ)
    let s1 := sd.samples.getD src_idx 0
    let s2 := sd.samples.getD (src_idx + 1) 0
    s1 * (1 - frac) + s2 * frac
  else sd.samples.getD src_idx 0

/-! ## Effects processor (`src/effects.rs`) -/

/-- `EffectsProcessor`'s mutable state.  `VecDeque`s are modelled as lists
with the deque front at the list head. -/
structure EffectsState where
  sample_rate : ℚ
  comb_buffers : List (List ℚ)
  comb_filter_state : List ℚ
  allpass_buffers : List (List ℚ)
  delay_buffer : List ℚ
  lowpass_state : ℚ
  filter_state : ℚ × ℚ
deriving DecidableEq, Repr

/-- Freeverb comb delay lengths of `EffectsProcessor::new`. -/
def combDelayLengths (sr : ℚ) : List ℕ :=
  let scale := sr / 44100
  [f32ToUsize (1116 * scale), f32ToUsize (1188 * scale),
   f32ToUsize (1277 * scale), f32ToUsize (1356 * scale),
   f32ToUsize (1422 * scale), f32ToUsize (1491 * scale),
   f32ToUsize (1557 * scale), f32ToUsize (1617 * scale)]

/-- Freeverb allpass delay lengths of `EffectsProcessor::new`. -/
def allpassDelayLengths (sr : ℚ) : List ℕ :=
  let scale := sr / 44100
  [f32ToUsize (556 * scale), f32ToUsize (441 * scale),
   f32ToUsize (341 * scale), f32ToUsize (225 * scale)]

/-- `EffectsProcessor::new`. -/
def EffectsState.new (sr : ℚ) : EffectsState where
  sample_rate := sr
  comb_buffers := (combDelayLengths sr).map (fun n => List.replicate n 0)
  comb_filter_state := List.replicate 8 0
  allpass_buffers := (allpassDelayLengths sr).map (fun n => List.replicate n 0)
  delay_buffer := List.replicate (f32ToUsize (sr * 2)) 0
  lowpass_state := 0
  filter_state := (0, 0)

/-- `EffectsProcessor::cycle_buffer`: pop the back, push the new value at
the front. -/
def cycleBuffer (buf : List ℚ) (v : ℚ) : List ℚ := v :: buf.dropLast

/-- The biquad coefficient computation shared by the filter code and §4.5
(the spec states exactly these formulas): returns `(b0, b1, b2, a0, a1, a2)`
from `ω = TAU·cutoff/sr` with `sin`/`cos` abstracted. -/
def biquadCoeffs (sinF cosF : ℚ → ℚ) (sr : ℚ) (params : FilterParams) :
    ℚ × ℚ × ℚ × ℚ × ℚ × ℚ :=
  let omega := tauQ * params.cutoff / sr
  let alpha := sinF omega * params.resonance
  let cos_omega := cosF omega
  match params.filter_type with
  | .LowPass =>
    ((1 - cos_omega) / 2, 1 - cos_omega, (1 - cos_omega) / 2,
     1 + alpha, -2 * cos_omega, 1 - alpha)
  | .HighPass =>
    ((1 + cos_omega) / 2, -(1 + cos_omega), (1 + cos_omega) / 2,
     1 + alpha, -2 * cos_omega, 1 - alpha)
  | .BandPass =>
    (alpha, 0, -alpha, 1 + alpha, -2 * cos_omega, 1 - alpha)

/-- `EffectsProcessor::apply_filter`.  The code keeps a single two-value
state `(filter_state.0, filter_state.1)` holding the two previous outputs,
and feeds it to the `b1`/`b2` taps as well as the `a1`/`a2` taps. -/
def applyFilter (sinF cosF : ℚ → ℚ) (st : EffectsState) (input : ℚ)
    (params : FilterParams) : ℚ × EffectsState :=
  let (b0, b1, b2, a0, a1, a2) := biquadCoeffs sinF cosF st.sample_rate params
  let output := (b0 * input + b1 * st.filter_state.1 + b2 * st.filter_state.2
    - a1 * st.filter_state.1 - a2 * st.filter_state.2) / a0
  (output, { st with filter_state := (output, st.filter_state.1) })

/-- The biquad as §4.5 words it: separate two-sample input and output
histories, both rotated each call.  Written from the spec for comparison
with `applyFilter`. -/
structure SpecFilterState where
  x1 : ℚ
  x2 : ℚ
  y1 : ℚ
  y2 : ℚ
deriving DecidableEq, Repr

/-- The spec's biquad step (same coefficients, separate histories). -/
def specApplyFilter (sinF cosF : ℚ → ℚ) (sr : ℚ) (st : SpecFilterState)
    (input : ℚ) (params : FilterParams) : ℚ × SpecFilterState :=
  let (b0, b1, b2, a0, a1, a2) := biquadCoeffs sinF cosF sr params
  let output := (b0 * input + b1 * st.x1 + b2 * st.x2
    - a1 * st.y1 - a2 * st.y2) / a0
  (output, ⟨input, st.x1, output, st.y1⟩)

/-- `EffectsProcessor::apply_distortion`. -/
def applyDistortion (st : EffectsState) (input : ℚ)
    (params : DistortionParams) : ℚ × EffectsState :=
  let driven := input * params.drive
  let distorted :=
    if 1 < driven then 2 / 3
    else if driven < -1 then -(2 / 3)
    else driven - driven ^ 3 / 3
  let alpha := 1 - params.tone
  let lp := st.lowpass_state * alpha + distorted * (1 - alpha)
  (input * (1 - params.wet) + lp * params.wet, { st with lowpass_state := lp })

/-- `EffectsProcessor::apply_delay`.  Returns `none` exactly where the Rust
code would fault: `delay_buffer.len() - 1` underflows on an empty buffer. -/
def applyDelay (st : EffectsState) (input : ℚ) (params : DelayParams) :
    Option (ℚ × EffectsState) :=
  if st.delay_buffer.length = 0 then none
  else
    let delay_samples :=
      min (f32ToUsize (params.time * st.sample_rate)) (st.delay_buffer.length - 1)
    let delayed := st.delay_buffer.getD delay_samples 0
    some (input * (1 - params.wet) + delayed * params.wet,
      { st with
        delay_buffer := cycleBuffer st.delay_buffer (input + delayed * params.feedback) })

/-- The body of `apply_reverb`'s `for i in 0..8` comb loop, walking the
comb buffers and comb filter states in lockstep while accumulating the
summed tails. -/
def combLoop (input room_size damping : ℚ) :
    List (List ℚ) → List ℚ → ℚ → List (List ℚ) × List ℚ × ℚ
  | b :: bs, s :: ss, acc =>
    let delayed := (b.getLast?).getD 0
    let s' := delayed * (1 - damping) + s * damping
    let fb := s' * room_size
    let (rest, restS, acc') := combLoop input room_size damping bs ss (acc + delayed)
    (cycleBuffer b (input + fb) :: rest, s' :: restS, acc')
  | bs, ss, acc => (bs, ss, acc)

/-- The body of `apply_reverb`'s allpass cascade. -/
def allpassLoop : List (List ℚ) → ℚ → List (List ℚ) × ℚ
  | [], output => ([], output)
  | b :: bs, output =>
    let delayed := (b.getLast?).getD 0
    let new_val := output + delayed * 0.5
    let (rest, fin) := allpassLoop bs (delayed - output * 0.5)
    (cycleBuffer b new_val :: rest, fin)

/-- `EffectsProcessor::apply_reverb`. -/
def applyReverb (st : EffectsState) (input : ℚ)
    (params : ReverbParams) : ℚ × EffectsState :=
  let (cb, cs, sum) :=
    combLoop input params.room_size params.damping
      st.comb_buffers st.comb_filter_state 0
  let output := sum / 8
  let (ab, out2) := allpassLoop st.allpass_buffers output
  (input * (1 - params.wet) + out2 * params.wet,
   { st with comb_buffers := cb, comb_filter_state := cs, allpass_buffers := ab })

/-- `EffectsProcessor::process`: fixed order filter → distortion → delay →
reverb, each skipped when its parameters are absent. -/
def processSample (sinF cosF : ℚ → ℚ) (st : EffectsState) (input : ℚ)
    (effects : EffectsChain) : Option (ℚ × EffectsState) :=
  let (o1, st1) :=
    match effects.filter with
    | some f => applyFilter sinF cosF st input f
    | none => (input, st)
  let (o2, st2) :=
    match effects.distortion with
    | some d => applyDistortion st1 o1 d
    | none => (o1, st1)
  match effects.delay with
  | some d =>
    match applyDelay st2 o2 d with
    | none => none
    | some (o3, st3) =>
      some (match effects.reverb with
        | some r => applyReverb st3 o3 r
        | none => (o3, st3))
  | none =>
    some (match effects.reverb with
      | some r => applyReverb st2 o2 r
      | none => (o2, st2))

/-! ## Offline renderer (`src/engine.rs`, `synthesize_track_into` and
`synthesize_arrangement_private`) -/

/-- Per-sample loop of the `Synthesized` note arm of
`synthesize_track_into`: phase-accumulation oscillator, breaking out when
the buffer end is reached (at which point the phase and the noise oracle
stop advancing, as in the code). -/
def noteSynthLoop (sinF : ℚ → ℚ) (noise : ℕ → ℚ) (sr : ℚ) (wv : WaveformType)
    (note : Note) (note_duration : ℚ) (instr : Instrument) (base : ℕ) :
    ℕ → ℕ → ℚ → List ℚ → ℕ → List ℚ × ℕ
  | i, remaining, phase, buffer, k =>
    match remaining with
    | 0 => (buffer, k)
    | r + 1 =>
      let sample_idx := base + i
      if buffer.length ≤ sample_idx then (buffer, k)
      else
        let time_in_note := (i : ℚ) / sr
        let envelope := calculateEnvelopeStatic time_in_note note_duration instr
        let pitch :=
          match note.slide_to with
          | some slide_target =>
            let slide_progress := time_in_note / note_duration
            note.pitch * (1 - slide_progress) + slide_target * slide_progress
          | none => note.pitch
        let (output, k') := generateSample sinF noise wv phase k
        let p := phase + pitch / sr
        let phase' := if 1 ≤ p then p - 1 else p
        let buffer' := buffer.set sample_idx
          (buffer.getD sample_idx 0 + output * envelope * note.velocity * instr.volume)
        noteSynthLoop sinF noise sr wv note note_duration instr base
          (i + 1) r phase' buffer' k'

/-- Per-sample loop of the `Sample` (PCM) note arm of
`synthesize_track_into`. -/
def noteSampleLoop (sr : ℚ) (sd : SampleData)
    (pitch_adjusted_rate actual_duration velocity : ℚ) (instr : Instrument)
    (base : ℕ) : ℕ → ℕ → List ℚ → List ℚ
  | i, remaining, buffer =>
    match remaining with
    | 0 => buffer
    | r + 1 =>
      let sample_idx := base + i
      if buffer.length ≤ sample_idx then buffer
      else
        let time_in_note := (i : ℚ) / sr
        let envelope := calculateEnvelopeStatic time_in_note actual_duration instr
        let sample_value := interpolateSample sd time_in_note pitch_adjusted_rate
        let buffer' := buffer.set sample_idx
          (buffer.getD sample_idx 0 + sample_value * envelope * velocity * instr.volume)
        noteSampleLoop sr sd pitch_adjusted_rate actual_duration velocity instr base
          (i + 1) r buffer'

/-- Per-sample inner loop of the chord arm of `synthesize_track_into`
(one chord pitch, its own phase; a `Sample` source writes nothing). -/
def chordSynthLoop (sinF : ℚ → ℚ) (noise : ℕ → ℚ) (sr : ℚ)
    (src : InstrumentSource) (chord : Chord) (chord_duration : ℚ)
    (instr : Instrument) (pitch : ℚ) (base : ℕ) :
    ℕ → ℕ → ℚ → List ℚ → ℕ → List ℚ × ℕ
  | i, remaining, phase, buffer, k =>
    match remaining with
    | 0 => (buffer, k)
    | r + 1 =>
      let sample_idx := base + i
      if buffer.length ≤ sample_idx then (buffer, k)
      else
        match src with
        | .Synthesized wv =>
          let envelope := calculateEnvelopeStatic ((i : ℚ) / sr) chord_duration instr
          let (output, k') := generateSample sinF noise wv phase k
          let p := phase + pitch / sr
          let phase' := if 1 ≤ p then p - 1 else p
          let buffer' := buffer.set sample_idx
            (buffer.getD sample_idx 0 +
              output * envelope * chord.velocity * instr.volume / (chord.pitches.length : ℚ))
          chordSynthLoop sinF noise sr src chord chord_duration instr pitch base
            (i + 1) r phase' buffer' k'
        | .Sample _ =>
          chordSynthLoop sinF noise sr src chord chord_duration instr pitch base
            (i + 1) r phase buffer k

/-- Outer chord loop: render each pitch of the chord in turn. -/
def chordLoop (sinF : ℚ → ℚ) (noise : ℕ → ℚ) (sr : ℚ)
    (src : InstrumentSource) (chord : Chord) (chord_duration : ℚ)
    (instr : Instrument) (base chord_samples : ℕ) :
    List ℚ → List ℚ → ℕ → List ℚ × ℕ
  | [], buffer, k => (buffer, k)
  | pitch :: rest, buffer, k =>
    let (buffer', k') := chordSynthLoop sinF noise sr src chord chord_duration
      instr pitch base 0 chord_samples 0 buffer k
    chordLoop sinF noise sr src chord chord_duration instr base chord_samples
      rest buffer' k'

/-- One sequence element of `synthesize_track_into`; the accumulator is
`(buffer, current_sample, noise index)`. -/
def trackElementStep (sinF : ℚ → ℚ) (noise : ℕ → ℚ) (sr : ℚ)
    (track : MelodyTrack) (beat_duration : ℚ)
    (acc : List ℚ × ℕ × ℕ) (element : SequenceElement) (start_sample : ℕ) :
    List ℚ × ℕ × ℕ :=
  let (buffer, current_sample, k) := acc
  match element with
  | .Note note =>
    let note_duration_seconds := note.duration * beat_duration
    match track.instrument.source with
    | .Synthesized wv =>
      let note_samples := f32ToUsize (note_duration_seconds * sr)
      let (buffer', k') := noteSynthLoop sinF noise sr wv note
        note_duration_seconds track.instrument (start_sample + current_sample)
        0 note_samples 0 buffer k
      (buffer', current_sample + note_samples, k')
    | .Sample sd =>
      let pitch_adjusted_rate := track.instrument.pitch
      let sample_len := sd.samples.length
      let output_len := f32ToUsize ((sample_len : ℚ) / pitch_adjusted_rate)
      let actual_duration := (output_len : ℚ) / sr
      let buffer' := noteSampleLoop sr sd pitch_adjusted_rate actual_duration
        note.velocity track.instrument (start_sample + current_sample)
        0 output_len buffer
      (buffer', current_sample + output_len, k)
  | .Chord chord =>
    let chord_duration_seconds := chord.duration * beat_duration
    let chord_samples := f32ToUsize (chord_duration_seconds * sr)
    let (buffer', k') := chordLoop sinF noise sr track.instrument.source chord
      chord_duration_seconds track.instrument (start_sample + current_sample)
      chord_samples chord.pitches buffer k
    (buffer', current_sample + chord_samples, k')
  | .Rest duration =>
    let rest_samples := f32ToUsize (duration * beat_duration * sr)
    (buffer, current_sample + rest_samples, k)

/-- `SynthEngine::synthesize_track_into`. -/
def synthesizeTrackInto (sinF : ℚ → ℚ) (noise : ℕ → ℚ) (sr : ℚ)
    (buffer : List ℚ) (track : MelodyTrack) (start_sample : ℕ) (k : ℕ) :
    List ℚ × ℕ :=
  let beat_duration := 60 / track.tempo
  let (buf, _, k') := track.sequence.foldl
    (fun acc element => trackElementStep sinF noise sr track beat_duration acc element start_sample)
    (buffer, 0, k)
  (buf, k')

/-- The override application of `synthesize_arrangement_private`: clone the
placed track, apply its `TrackOverrides` (folding `master_pitch` into the
pitch only inside the `Some` pitch-override branch), then multiply the
instrument volume by the per-track dynamic volume. -/
def applyOverrides (track : MelodyTrack) (ov : TrackOverrides)
    (master_pitch track_vol : ℚ) : MelodyTrack :=
  let i0 := track.instrument
  let i1 := { i0 with volume := match ov.volume with | some v => v | none => i0.volume }
  let i2 := { i1 with pitch := match ov.pitch with | some p => p * master_pitch | none => i1.pitch }
  let tempo' := match ov.tempo with | some tm => tm | none => track.tempo
  let e0 := i2.effects
  let e1 := { e0 with reverb := match ov.reverb with | some r => some r | none => e0.reverb }
  let e2 := { e1 with delay := match ov.delay with | some d => some d | none => e1.delay }
  let e3 := { e2 with distortion := match ov.distortion with | some x => some x | none => e2.distortion }
  let e4 := { e3 with filter := match ov.filter with | some f => some f | none => e3.filter }
  let i3 := { i2 with effects := e4 }
  let i4 := { i3 with volume := i3.volume * track_vol }
  { track with instrument := i4, tempo := tempo' }

/-- Pass every sample of a chunk through the effects processor, in chunk
order, threading the processor state. -/
def processChunk (sinF cosF : ℚ → ℚ) (effects : EffectsChain) :
    EffectsState → List ℚ → Option (List ℚ × EffectsState)
  | st, [] => some ([], st)
  | st, x :: xs =>
    match processSample sinF cosF st x effects with
    | none => none
    | some (y, st') =>
      match processChunk sinF cosF effects st' xs with
      | none => none
      | some (ys, st'') => some (y :: ys, st'')

/-- Mix a rendered chunk into the master buffer starting at `idx`,
multiplied by `master_volume`; out-of-range writes are dropped, matching
`buffer.get_mut`. -/
def mixChunk (master_volume : ℚ) : List ℚ → ℕ → List ℚ → List ℚ
  | buffer, _, [] => buffer
  | buffer, idx, s :: rest =>
    mixChunk master_volume (buffer.set idx (buffer.getD idx 0 + s * master_volume))
      (idx + 1) rest

/-- The per-track chunk loop of `synthesize_arrangement_private`
(`while sample_offset < track_total_samples`).  `fuel` bounds the number of
iterations; each iteration advances `sample_offset` by at least one, so
`fuel = track_total_samples` always suffices for a faithful run. -/
def chunkLoop (sinF cosF : ℚ → ℚ) (noise : ℕ → ℚ) (sr : ℚ) (t : MelodyTrack)
    (master_volume : ℚ) (start_sample track_total_samples : ℕ) :
    ℕ → ℕ → List ℚ → Option EffectsState → ℕ →
    Option (List ℚ × Option EffectsState × ℕ)
  | fuel, sample_offset, buffer, fx, k =>
    match fuel with
    | 0 => some (buffer, fx, k)
    | f + 1 =>
      if sample_offset < track_total_samples then
        let current_chunk_size := min 1024 (track_total_samples - sample_offset)
        let chunk0 := List.replicate current_chunk_size 0
        let (chunk1, k1) := synthesizeTrackInto sinF noise sr chunk0 t sample_offset k
        let fxStep : Option (List ℚ × Option EffectsState) :=
          match fx with
          | some st =>
            match processChunk sinF cosF t.instrument.effects st chunk1 with
            | none => none
            | some (c2, st') => some (c2, some st')
          | none => some (chunk1, none)
        match fxStep with
        | none => none
        | some (chunk2, fx') =>
          let buffer' := mixChunk master_volume buffer (start_sample + sample_offset) chunk2
          chunkLoop sinF cosF noise sr t master_volume start_sample
            track_total_samples f (sample_offset + current_chunk_size) buffer' fx' k1
      else some (buffer, fx, k)

/-- The per-placed-track body of `synthesize_arrangement_private`:
skip disabled tracks, apply overrides, render chunk by chunk. -/
def renderTrack (sinF cosF : ℚ → ℚ) (noise : ℕ → ℚ) (sr : ℚ)
    (params : DynamicParameters) (acc : List ℚ × ℕ)
    (placed : MelodyTrack × ℚ × TrackOverrides) : Option (List ℚ × ℕ) :=
  let (buffer, k) := acc
  let (track, start_time, overrides) := placed
  let enabled := (params.track_enabled track.name).getD true
  if enabled then
    let track_vol := (params.track_volumes track.name).getD 1
    let start_sample := f32ToUsize (start_time * sr)
    let t := applyOverrides track overrides params.master_pitch track_vol
    let track_total_samples := f32ToUsize (t.length * sr)
    let fx := if t.instrument.effects.has_any then some (EffectsState.new sr) else none
    match chunkLoop sinF cosF noise sr t params.master_volume start_sample
        track_total_samples track_total_samples 0 buffer fx k with
    | none => none
    | some (buffer', _, k') => some (buffer', k')
  else some (buffer, k)

/-- Fold `renderTrack` over all placed tracks. -/
def renderTracks (sinF cosF : ℚ → ℚ) (noise : ℕ → ℚ) (sr : ℚ)
    (params : DynamicParameters) :
    List (MelodyTrack × ℚ × TrackOverrides) → List ℚ × ℕ → Option (List ℚ × ℕ)
  | [], acc => some acc
  | p :: ps, acc =>
    match renderTrack sinF cosF noise sr params acc p with
    | none => none
    | some acc' => renderTracks sinF cosF noise sr params ps acc'

/-- The fade-in pass of `synthesize_arrangement_private`. -/
def applyFadeIn (sr : ℚ) (fade_in : Option ℚ) (buffer : List ℚ) : List ℚ :=
  match fade_in with
  | none => buffer
  | some dur =>
    let n := f32ToUsize (dur * sr)
    buffer.mapIdx (fun i s => if i < n then s * ((i : ℚ) / (n : ℚ)) else s)

/-- The fade-out pass of `synthesize_arrangement_private`. -/
def applyFadeOut (sr : ℚ) (fade_out : Option ℚ) (buffer : List ℚ) : List ℚ :=
  match fade_out with
  | none => buffer
  | some dur =>
    let n := f32ToUsize (dur * sr)
    let fade_start := buffer.length - n
    buffer.mapIdx (fun i s =>
      if fade_start ≤ i then s * (((buffer.length - i : ℕ) : ℚ) / (n : ℚ)) else s)

/-- Peak magnitude of the buffer
(`buffer.iter().map(|v| v.abs()).max_by(..)`). -/
def listPeak : List ℚ → Option ℚ
  | [] => none
  | x :: xs => some (xs.foldl (fun a b => max a |b|) |x|)

/-- The final normalization step of `synthesize_arrangement_private`:
divide the whole buffer by the peak iff the peak exceeds 1. -/
def normalize (buffer : List ℚ) : List ℚ :=
  match listPeak buffer with
  | none => buffer
  | some m => if 1 < m then buffer.map (fun s => s / m) else buffer

/-- Everything `synthesize_arrangement_private` does before the final
normalization: allocate the zeroed master buffer, render and mix every
enabled track, then apply the fades. -/
def prenormBuffer (sinF cosF : ℚ → ℚ) (noise : ℕ → ℚ) (sr : ℚ)
    (arrangement : Arrangement) (params : DynamicParameters) (k : ℕ) :
    Option (List ℚ) :=
  let total_samples := f32ToUsize (arrangement.total_length * sr)
  let buffer := List.replicate total_samples (0 : ℚ)
  match renderTracks sinF cosF noise sr params arrangement.tracks (buffer, k) with
  | none => none
  | some (buf, _) =>
    some (applyFadeOut sr arrangement.fade_out (applyFadeIn sr arrangement.fade_in buf))

/-- `SynthEngine::synthesize_arrangement_private`. -/
def synthesizeArrangementPrivate (sinF cosF : ℚ → ℚ) (noise : ℕ → ℚ)
    (sr : ℚ) (arrangement : Arrangement) (params : DynamicParameters) (k : ℕ) :
    Option (List ℚ) :=
  (prenormBuffer sinF cosF noise sr arrangement params k).map normalize

/-! ## Arrangement score parser (`src/arrangement.rs`, `from_bmi`).
`str::parse::<f32>` is abstracted as a parameter
`parseF : List Char → Option ℚ`; the melody cache as a function into
`Option MelodyTrack`. -/

/-- `str::lines`: split at newlines (tolerating `\r\n`), the final line
ending optional. -/
def rustLines (content : List Char) : List (List Char) :=
  let segs := splitOnChar '\n' content
  let segs := if segs.getLast? = some [] then segs.dropLast else segs
  segs.map (fun l => if l.getLast? = some '\r' then l.dropLast else l)

/-- One `k=v` item of a `track:` line's override list. -/
def parseOverrideItem (parseF : List Char → Option ℚ) (ov : TrackOverrides)
    (item : List Char) : TrackOverrides :=
  match splitOnce '=' item with
  | none => ov
  | some (k0, v0) =>
    let key := trimChars k0
    let val := trimChars v0
    if key = "volume".toList ∨ key = "vol".toList then
      { ov with volume := parseF val }
    else if key = "pitch".toList then { ov with pitch := parseF val }
    else if key = "tempo".toList then { ov with tempo := parseF val }
    else if key = "pan".toList then { ov with pan := parseF val }
    else if key = "filter".toList then
      let vals := splitOnChar ':' val
      if 3 ≤ vals.length then
        let s := (vals.getD 0 []).map Char.toLower
        let ft :=
          if s = "lowpass".toList ∨ s = "lp".toList then FilterType.LowPass
          else if s = "highpass".toList ∨ s = "hp".toList then FilterType.HighPass
          else if s = "bandpass".toList ∨ s = "bp".toList then FilterType.BandPass
          else FilterType.LowPass
        { ov with filter := some ⟨(parseF (vals.getD 1 [])).getD 1000,
                  (parseF (vals.getD 2 [])).getD 0.7, ft⟩ }
      else ov
    else if key = "reverb".toList then
      let vals := splitOnChar ':' val
      if 4 ≤ vals.length then
        { ov with reverb := some ⟨(parseF (vals.getD 0 [])).getD 0.5,
                  (parseF (vals.getD 1 [])).getD 0.5,
                  (parseF (vals.getD 2 [])).getD 0.3, (parseF (vals.getD 3 [])).getD 1⟩ }
      else ov
    else if key = "delay".toList then
      let vals := splitOnChar ':' val
      if 3 ≤ vals.length then
        { ov with delay := some ⟨(parseF (vals.getD 0 [])).getD 0.25,
                  (parseF (vals.getD 1 [])).getD 0.4,
                  (parseF (vals.getD 2 [])).getD 0.3⟩ }
      else ov
    else if key = "distortion".toList ∨ key = "dist".toList then
      let vals := splitOnChar ':' val
      if 3 ≤ vals.length then
        { ov with distortion := some ⟨(parseF (vals.getD 0 [])).getD 2,
                  (parseF (vals.getD 1 [])).getD 0.7,
                  (parseF (vals.getD 2 [])).getD 0.5⟩ }
      else ov
    else ov

/-- One line of `Arrangement::from_bmi`'s loop. -/
def processBmiLine (parseF : List Char → Option ℚ)
    (cache : List Char → Option MelodyTrack) (arrangement : Arrangement)
    (line0 : List Char) : Except SynthError Arrangement :=
  let line := trimChars line0
  if line = [] then .ok arrangement
  else if (strip? "//".toList line).isSome then .ok arrangement
  else
    match strip? "name:".toList line with
    | some value => .ok { arrangement with name := trimChars value }
    | none =>
    match strip? "master_tempo:".toList line with
    | some value => .ok { arrangement with master_tempo := parseF (trimChars value) }
    | none =>
    match strip? "fade_in:".toList line with
    | some value => .ok { arrangement with fade_in := parseF (trimChars value) }
    | none =>
    match strip? "fade_out:".toList line with
    | some value => .ok { arrangement with fade_out := parseF (trimChars value) }
    | none =>
    match strip? "loop:".toList line with
    | some value =>
      let parts := (splitOnChar ',' value).map trimChars
      if 2 ≤ parts.length then
        .ok { arrangement with loop_point := some ⟨(parseF (parts.getD 0 [])).getD 0,
                (parseF (parts.getD 1 [])).getD arrangement.total_length⟩ }
      else .ok arrangement
    | none =>
    match strip? "track:".toList line with
    | some value =>
      let parts := (splitOnChar ',' value).map trimChars
      if 2 ≤ parts.length then
        match parseF (parts.getD 1 []) with
        | none => .error (.ParseError "Invalid start time")
        | some start_time =>
          let overrides := (parts.drop 2).foldl (parseOverrideItem parseF) TrackOverrides.base
          match cache (parts.getD 0 []) with
          | some track =>
            let modified1 :=
              match overrides.tempo with
              | some tm => { track with tempo := tm }
              | none => track
            let modified :=
              match arrangement.master_tempo with
              | some mt => { modified1 with tempo := mt }
              | none => modified1
            let end_time := start_time + track.length
            .ok { arrangement with
              tracks := arrangement.tracks ++ [(modified, start_time, overrides)],
              total_length :=
                if arrangement.total_length < end_time then end_time
                else arrangement.total_length }
          | none => .ok arrangement
      else .ok arrangement
    | none => .ok arrangement

/-- The line fold of `Arrangement::from_bmi` (everything before the final
zero-track check); errors short-circuit as the Rust `?` does. -/
def bmiFold (parseF : List Char → Option ℚ)
    (cache : List Char → Option MelodyTrack) (content : List Char) :
    Except SynthError Arrangement :=
  let init : Arrangement := ⟨"song".toList, [], 0, none, none, none, none⟩
  (rustLines content).foldl
    (fun acc line =>
      match acc with
      | .error e => .error e
      | .ok arr => processBmiLine parseF cache arr line)
    (.ok init)

/-- `Arrangement::from_bmi`. -/
def fromBmi (parseF : List Char → Option ℚ)
    (cache : List Char → Option MelodyTrack) (content : List Char) :
    Except SynthError Arrangement :=
  match bmiFold parseF cache content with
  | .error e => .error e
  | .ok arrangement =>
    if arrangement.tracks = [] then
      .error (.InvalidInstrument "Arrangement has no valid tracks")
    else .ok arrangement

/-! ## Realtime player (`src/engine.rs`) -/

inductive PlaybackState where
  | Stopped
  | Playing
  | Paused
deriving DecidableEq, Repr

structure CrossfadeState where
  target_arrangement : Arrangement
  progress : ℚ
  duration_samples : ℕ
deriving DecidableEq, Repr

/-- `PlaybackContext`; the `param_interpolators` map is modelled as a
function into `Option`. -/
structure PlaybackContext where
  arrangement : Arrangement
  current_sample : ℕ
  state : PlaybackState
  loop_enabled : Bool
  dynamic_params : DynamicParameters
  param_interpolators : List Char → Option ℚ
  crossfade_state : Option CrossfadeState

/-- The element walk of `synthesize_single_sample`: find the first element
containing `track_time` and emit its contribution (the code `break`s at the
first hit); rests only advance the cumulative time. -/
def singleSampleElements (sinF : ℚ → ℚ) (noise : ℕ → ℚ)
    (track : MelodyTrack) (overrides : TrackOverrides)
    (params : DynamicParameters) (track_vol track_time beat_duration : ℚ) :
    List SequenceElement → ℚ → ℕ → ℚ × ℕ
  | [], _, k => (0, k)
  | element :: rest, cumulative_time, k =>
    match element with
    | .Note note =>
      let note_duration := note.duration * beat_duration
      let next_time := cumulative_time + note_duration
      if cumulative_time ≤ track_time ∧ track_time < next_time then
        let time_in_note := track_time - cumulative_time
        let envelope := calculateEnvelopeStatic time_in_note note_duration track.instrument
        let pitch :=
          match note.slide_to with
          | some slide_target =>
            let slide_progress := time_in_note / note_duration
            note.pitch * (1 - slide_progress) + slide_target * slide_progress
          | none => note.pitch
        let (sample, k') :=
          match track.instrument.source with
          | .Synthesized waveform =>
            generateSample sinF noise waveform
              (qRem1 (track_time * pitch * params.master_pitch)) k
          | .Sample sample_data =>
            (interpolateSample sample_data time_in_note
              (track.instrument.pitch * params.master_pitch), k)
        let volume := track.instrument.volume * (overrides.volume.getD 1) * track_vol
        (sample * envelope * note.velocity * volume, k')
      else
        singleSampleElements sinF noise track overrides params track_vol
          track_time beat_duration rest next_time k
    | .Chord chord =>
      let chord_duration := chord.duration * beat_duration
      let next_time := cumulative_time + chord_duration
      if cumulative_time ≤ track_time ∧ track_time < next_time then
        let time_in_note := track_time - cumulative_time
        let envelope := calculateEnvelopeStatic time_in_note chord_duration track.instrument
        chord.pitches.foldl
          (fun (acc : ℚ × ℕ) pitch =>
            let (o, kk) := acc
            let (sample, kk') :=
              match track.instrument.source with
              | .Synthesized waveform =>
                generateSample sinF noise waveform
                  (qRem1 (track_time * pitch * params.master_pitch)) kk
              | .Sample sample_data =>
                (interpolateSample sample_data time_in_note
                  (track.instrument.pitch * params.master_pitch), kk)
            let volume := track.instrument.volume * (overrides.volume.getD 1) * track_vol
            (o + sample * envelope * chord.velocity * volume / (chord.pitches.length : ℚ), kk'))
          (0, k)
      else
        singleSampleElements sinF noise track overrides params track_vol
          track_time beat_duration rest next_time k
    | .Rest duration =>
      singleSampleElements sinF noise track overrides params track_vol
        track_time beat_duration rest (cumulative_time + duration * beat_duration) k

/-- `SynthEngine::synthesize_single_sample`. -/
def synthesizeSingleSample (sinF : ℚ → ℚ) (noise : ℕ → ℚ)
    (arrangement : Arrangement) (sample_idx : ℕ) (sr : ℚ)
    (params : DynamicParameters) (k : ℕ) : ℚ × ℕ :=
  let current_time := (sample_idx : ℚ) / sr
  arrangement.tracks.foldl
    (fun (acc : ℚ × ℕ) placed =>
      let (output, kk) := acc
      let (track, start_time, overrides) := placed
      let enabled := (params.track_enabled track.name).getD true
      if enabled then
        let track_vol := (params.track_volumes track.name).getD 1
        if current_time < start_time then (output, kk)
        else
          let track_time := current_time - start_time
          let beat_duration := 60 / track.tempo
          let (contrib, kk') := singleSampleElements sinF noise track overrides
            params track_vol track_time beat_duration track.sequence 0 kk
          (output + contrib, kk')
      else (output, kk))
    (0, k)

/-- One frame of the audio callback installed by `start_stream`: current
arrangement synthesis, crossfade mix and completion swap, position advance,
loop/stop logic, fade multipliers, master volume.  Returns the updated
context, the mono value written to every channel of the frame, and the next
noise index.  A missing context or a non-`Playing` state yields silence. -/
def callbackFrame (sinF : ℚ → ℚ) (noise : ℕ → ℚ) (sr : ℚ)
    (ctx : Option PlaybackContext) (k : ℕ) :
    Option PlaybackContext × ℚ × ℕ :=
  match ctx with
  | none => (none, 0, k)
  | some context =>
    if context.state ≠ PlaybackState.Playing then (some context, 0, k)
    else
      let (output0, k1) := synthesizeSingleSample sinF noise context.arrangement
        context.current_sample sr context.dynamic_params k
      let (output1, k2, arrangement1, crossfade1) :=
        match context.crossfade_state with
        | some crossfade =>
          let t := crossfade.progress / (crossfade.duration_samples : ℚ)
          let (target_sample, kk) := synthesizeSingleSample sinF noise
            crossfade.target_arrangement context.current_sample sr
            context.dynamic_params k1
          let out := output0 * (1 - t) + target_sample * t
          let progress' := crossfade.progress + 1
          if (crossfade.duration_samples : ℚ) ≤ progress' then
            (out, kk, crossfade.target_arrangement, (none : Option CrossfadeState))
          else
            (out, kk, context.arrangement, some { crossfade with progress := progress' })
        | none => (output0, k1, context.arrangement, context.crossfade_state)
      let current1 := context.current_sample + 1
      let (current2, state2) :=
        if context.loop_enabled then
          match arrangement1.loop_point with
          | some loop_point =>
            let pos := (current1 : ℚ) / sr
            if loop_point.stop ≤ pos then (f32ToUsize (loop_point.start * sr), context.state)
            else (current1, context.state)
          | none =>
            let total_samples := f32ToUsize (arrangement1.total_length * sr)
            if total_samples ≤ current1 then (0, context.state)
            else (current1, context.state)
        else
          let total_samples := f32ToUsize (arrangement1.total_length * sr)
          if total_samples ≤ current1 then (current1, PlaybackState.Stopped)
          else (current1, context.state)
      let current_time := (current2 : ℚ) / sr
      let total_length := arrangement1.total_length
      let fade1 :=
        match arrangement1.fade_in with
        | some fade_in_dur =>
          if current_time < fade_in_dur then current_time / fade_in_dur else 1
        | none => 1
      let fade2 :=
        match arrangement1.fade_out with
        | some fade_out_dur =>
          let fade_out_start := total_length - fade_out_dur
          if fade_out_start < current_time then (total_length - current_time) / fade_out_dur
          else 1
        | none => 1
      let final_output := output1 * context.dynamic_params.master_volume * (fade1 * fade2)
      (some { context with
          arrangement := arrangement1
          crossfade_state := crossfade1
          current_sample := current2
          state := state2 },
       final_output, k2)

/-- The fresh context built by `play_arrangement` (the audio-stream side
effects are outside the model): state `Playing`, position 0, default
dynamic parameters with `track_enabled` / `track_volumes` seeded from the
arrangement's track names. -/
def playArrangementCtx (arrangement : Arrangement) : PlaybackContext :=
  let seeded := arrangement.tracks.foldl
    (fun (dp : DynamicParameters) placed =>
      let nm := placed.1.name
      { dp with
        track_enabled := fun n => if n = nm then some true else dp.track_enabled n
        track_volumes := fun n => if n = nm then some 1 else dp.track_volumes n })
    DynamicParameters.base
  { arrangement := arrangement
    current_sample := 0
    state := .Playing
    loop_enabled := false
    dynamic_params := seeded
    param_interpolators := fun _ => none
    crossfade_state := none }

/-- `SynthEngine::crossfade_to`: with an existing context, install a
crossfade state toward the new arrangement; with none, fall through to
`play_arrangement`. -/
def crossfadeTo (ctx : Option PlaybackContext) (new_arrangement : Arrangement)
    (duration sr : ℚ) : Option PlaybackContext :=
  match ctx with
  | some c =>
    some { c with crossfade_state := some ⟨new_arrangement, 0, f32ToUsize (duration * sr)⟩ }
  | none => some (playArrangementCtx new_arrangement)

/-! ## Theorems settling the claims -/

attribute [local semireducible] Rat.add Rat.mul Rat.sub Rat.inv Rat.ofScientific

/-- C4 counterexample: the sawtooth oscillator at phase 0.5 yields −1, not
0 as the claim states (`(2·0.5 mod 1)·2 − 1 = −1`). -/
theorem c4_sawtooth_half_ne_zero :
    generateSampleR 0 WaveformType.Sawtooth (1/2) ≠ 0 := by
  show rRem1 ((1/2 : ℝ) * 2) * 2 - 1 ≠ 0
  rw [show ((1:ℝ)/2 * 2) = 1 by norm_num]
  unfold rRem1
  norm_num

/-- C4 (amended): the oscillator satisfies Sine(0) = 0, Sine(0.25) = 1 and
Square(φ) ∈ {+1, −1} for every phase, but Sawtooth(0.5) = −1 (the
doubled-frequency formula `(2φ mod 1)·2 − 1` vanishes at φ = 0.25 and
φ = 0.75, not at φ = 0.5). -/
theorem c4_waveform_point_values :
    generateSampleR 0 WaveformType.Sine 0 = 0 ∧
    generateSampleR 0 WaveformType.Sine (1/4) = 1 ∧
    (∀ nz phase : ℝ, generateSampleR nz WaveformType.Square phase = 1 ∨
      generateSampleR nz WaveformType.Square phase = -1) ∧
    generateSampleR 0 WaveformType.Sawtooth (1/2) = -1 := by
  refine ⟨?_, ?_, ?_, ?_⟩
  · show Real.sin (0 * (2 * Real.pi)) = 0
    simp
  · show Real.sin ((1/4 : ℝ) * (2 * Real.pi)) = 1
    rw [show (1/4 : ℝ) * (2 * Real.pi) = Real.pi / 2 by ring]
    exact Real.sin_pi_div_two
  · intro nz phase
    show (if rRem1 (phase * 2) < 0.5 then (1:ℝ) else -1) = 1 ∨
      (if rRem1 (phase * 2) < 0.5 then (1:ℝ) else -1) = -1
    split_ifs
    · exact Or.inl rfl
    · exact Or.inr rfl
  · show rRem1 ((1/2 : ℝ) * 2) * 2 - 1 = -1
    rw [show ((1:ℝ)/2 * 2) = 1 by norm_num]
    unfold rRem1
    norm_num

/-- C5 counterexample: with attack = 0 but also decay = 0, the envelope at
t = 0 falls through to the sustain branch and returns S (here 1/2), not 1
as the claim's "when A = 0 it yields 1 at t = 0" requires. -/
theorem c5_zero_attack_zero_decay :
    calculateEnvelopeStatic 0 1
      { Instrument.base with attack := 0, decay := 0, sustain := 1/2, release := 0 }
      = 1/2 ∧ ((1:ℚ)/2) ≠ 1 := by decide

/-- C5 (amended): for nonnegative ADSR parameters, 0 < d and 0 ≤ t < d,
`calculate_envelope_static` equals the four-branch piecewise definition of
§4.2 evaluated in the listed branch order; it returns S whenever
A+D ≤ t ≤ d−R; and when A = 0 and additionally D > 0 it yields 1 at t = 0
(with D = 0 as well, the time index falls into the sustain/release part
instead). -/
theorem c5_envelope_piecewise (instr : Instrument) (d t : ℚ)
    (hA : 0 ≤ instr.attack) (hD : 0 ≤ instr.decay) (hR : 0 ≤ instr.release)
    (hd : 0 < d) (ht0 : 0 ≤ t) (htd : t < d) :
    calculateEnvelopeStatic t d instr = specEnvelope t d instr ∧
    (instr.attack + instr.decay ≤ t → t ≤ d - instr.release →
      calculateEnvelopeStatic t d instr = instr.sustain) ∧
    (instr.attack = 0 → 0 < instr.decay →
      calculateEnvelopeStatic 0 d instr = 1) := by
  refine ⟨rfl, ?_, ?_⟩
  · intro h1 h2
    unfold calculateEnvelopeStatic
    dsimp only
    split_ifs with ha hb hc
    · exact absurd ha (by push_neg; linarith)
    · exact absurd hb (by push_neg; linarith)
    · rfl
    · have ht : t = d - instr.release := le_antisymm h2 (not_lt.mp hc)
      rw [ht]
      rw [sub_self, zero_div, sub_zero, mul_one]
  · intro hA0 hD0
    unfold calculateEnvelopeStatic
    rw [hA0]
    dsimp only
    split_ifs with ha hb
    · exact absurd ha (lt_irrefl 0)
    · simp
    · exact absurd hb (by push_neg; simpa using hD0)
    · exact absurd hb (by push_neg; simpa using hD0)

/-- C5 witness: a concrete instrument (A = 0, D = 1/10, S = 4/5, R = 1/5)
with d = 1 and t = 1/2 satisfying every hypothesis of
`c5_envelope_piecewise`. -/
theorem c5_envelope_witness :
    ((0:ℚ) ≤ 0 ∧ (0:ℚ) ≤ 1/10 ∧ (0:ℚ) ≤ 1/5 ∧ (0:ℚ) < 1 ∧ (0:ℚ) ≤ 1/2 ∧ (1:ℚ)/2 < 1) ∧
    (calculateEnvelopeStatic (1/2) 1
        { Instrument.base with attack := 0, decay := 1/10, sustain := 4/5, release := 1/5 }
      = specEnvelope (1/2) 1
        { Instrument.base with attack := 0, decay := 1/10, sustain := 4/5, release := 1/5 } ∧
    (({ Instrument.base with attack := 0, decay := 1/10, sustain := 4/5, release := 1/5 } : Instrument).attack
        + ({ Instrument.base with attack := 0, decay := 1/10, sustain := 4/5, release := 1/5 } : Instrument).decay ≤ (1/2 : ℚ) →
      (1/2 : ℚ) ≤ 1 - ({ Instrument.base with attack := 0, decay := 1/10, sustain := 4/5, release := 1/5 } : Instrument).release →
      calculateEnvelopeStatic (1/2) 1
        { Instrument.base with attack := 0, decay := 1/10, sustain := 4/5, release := 1/5 }
        = ({ Instrument.base with attack := 0, decay := 1/10, sustain := 4/5, release := 1/5 } : Instrument).sustain) ∧
    (({ Instrument.base with attack := 0, decay := 1/10, sustain := 4/5, release := 1/5 } : Instrument).attack = 0 →
      0 < ({ Instrument.base with attack := 0, decay := 1/10, sustain := 4/5, release := 1/5 } : Instrument).decay →
      calculateEnvelopeStatic 0 1
        { Instrument.base with attack := 0, decay := 1/10, sustain := 4/5, release := 1/5 } = 1)) :=
  ⟨by decide,
   c5_envelope_piecewise
     { Instrument.base with attack := 0, decay := 1/10, sustain := 4/5, release := 1/5 }
     1 (1/2) (by decide) (by decide) (by decide) (by decide) (by decide) (by decide)⟩

/-- C3: a concrete run refuting the separate-history reading.  With the
sine/cosine intrinsics modelled as sin ω = 3/5, cos ω = 4/5 (any model with
cos ω ≠ 1 behaves likewise), pushing the inputs 1 then 0 through a fresh
LowPass biquad, the code's second output is 9/128, while the documented
formula with separate input and output histories gives 3/16: `apply_filter`
keeps only previous outputs and feeds them to the `b1`/`b2` input taps. -/
theorem c3_filter_shared_history :
    (let p : FilterParams := ⟨1000, 1, FilterType.LowPass⟩
     let sF : ℚ → ℚ := fun _ => 3/5
     let cF : ℚ → ℚ := fun _ => 4/5
     let r1 := applyFilter sF cF (EffectsState.new 44100) 1 p
     let r2 := applyFilter sF cF r1.2 0 p
     let q1 := specApplyFilter sF cF 44100 ⟨0, 0, 0, 0⟩ 1 p
     let q2 := specApplyFilter sF cF 44100 q1.2 0 p
     r2.1 = 9/128 ∧ q2.1 = 3/16 ∧ r2.1 ≠ q2.1) := by decide

/-- Popping the back and pushing a fresh front leaves a nonempty deque's
length unchanged. -/
theorem cycleBuffer_length (l : List ℚ) (v : ℚ) (h : 1 ≤ l.length) :
    (cycleBuffer l v).length = l.length := by
  simp only [cycleBuffer, List.length_cons, List.length_dropLast]
  omega

/-- C9: the delay read offset `min(⌊time·sr⌋, buflen − 1)` is always in
bounds (so the read never panics), the buffer length is preserved by the
call (keeping every later call in bounds too), and `EffectsProcessor::new`
allocates the buffer with `2·sr` samples initialized to zero.  The
hypothesis `1 ≤ buflen` holds for every real sample rate (any `sr ≥ 1/2`). -/
theorem c9_delay_clamp (st : EffectsState) (params : DelayParams) (x : ℚ)
    (hlen : 1 ≤ st.delay_buffer.length) :
    (applyDelay st x params).isSome = true ∧
    min (f32ToUsize (params.time * st.sample_rate)) (st.delay_buffer.length - 1)
      < st.delay_buffer.length ∧
    (∀ y st', applyDelay st x params = some (y, st') →
      st'.delay_buffer.length = st.delay_buffer.length) ∧
    (∀ sr : ℚ, (EffectsState.new sr).delay_buffer = List.replicate (f32ToUsize (sr * 2)) 0) := by
  have hne : st.delay_buffer.length ≠ 0 := by omega
  refine ⟨?_, ?_, ?_, fun sr => rfl⟩
  · simp [applyDelay, hne]
  · exact Nat.lt_of_le_of_lt (Nat.min_le_right _ _) (by omega)
  · intro y st' h
    simp only [applyDelay, hne, if_false, Option.some.injEq, Prod.mk.injEq] at h
    rw [← h.2]
    exact cycleBuffer_length _ _ hlen

/-- C9 witness: a 4 Hz-sample-rate processor (8-sample delay buffer) with a
3-second delay time — longer than the 2-second buffer — stays in bounds. -/
theorem c9_delay_witness :
    1 ≤ (EffectsState.new 4).delay_buffer.length ∧
    ((applyDelay (EffectsState.new 4) 1 ⟨3, 1/2, 1⟩).isSome = true ∧
     min (f32ToUsize ((3:ℚ) * (EffectsState.new 4).sample_rate))
       ((EffectsState.new 4).delay_buffer.length - 1)
       < (EffectsState.new 4).delay_buffer.length ∧
     (∀ y st', applyDelay (EffectsState.new 4) 1 ⟨3, 1/2, 1⟩ = some (y, st') →
       st'.delay_buffer.length = (EffectsState.new 4).delay_buffer.length) ∧
     (∀ sr : ℚ, (EffectsState.new sr).delay_buffer = List.replicate (f32ToUsize (sr * 2)) 0)) :=
  ⟨by decide, c9_delay_clamp (EffectsState.new 4) ⟨3, 1/2, 1⟩ 1 (by decide)⟩

/-- The initial accumulator bounds the max-abs fold from below. -/
theorem foldl_maxAbs_init_le (xs : List ℚ) (a : ℚ) :
    a ≤ xs.foldl (fun u b => max u |b|) a := by
  induction xs generalizing a with
  | nil => exact le_refl a
  | cons y ys ih => exact le_trans (le_max_left a |y|) (ih (max a |y|))

/-- Every member's magnitude is bounded by the max-abs fold. -/
theorem foldl_maxAbs_mem_le (xs : List ℚ) (a : ℚ) :
    ∀ y ∈ xs, |y| ≤ xs.foldl (fun u b => max u |b|) a := by
  induction xs generalizing a with
  | nil => intro y hy; cases hy
  | cons z zs ih =>
    intro y hy
    rcases List.mem_cons.mp hy with h | h
    · subst h
      exact le_trans (le_max_right a |y|) (foldl_maxAbs_init_le zs (max a |y|))
    · exact ih (max a |z|) y h

/-- The max-abs fold is attained: it equals the initial accumulator or the
magnitude of some member. -/
theorem foldl_maxAbs_attained (xs : List ℚ) (a : ℚ) :
    xs.foldl (fun u b => max u |b|) a = a ∨
    ∃ y ∈ xs, xs.foldl (fun u b => max u |b|) a = |y| := by
  induction xs generalizing a with
  | nil => exact Or.inl rfl
  | cons z zs ih =>
    rcases ih (max a |z|) with h | ⟨y, hy, he⟩
    · rcases max_cases a |z| with ⟨hm, _⟩ | ⟨hm, _⟩
      · exact Or.inl (by rw [List.foldl_cons, h, hm])
      · exact Or.inr ⟨z, List.mem_cons_self z zs, by rw [List.foldl_cons, h, hm]⟩
    · exact Or.inr ⟨y, List.mem_cons_of_mem z hy, by rw [List.foldl_cons]; exact he⟩

/-- Dividing by a positive constant commutes with the max-abs fold. -/
theorem foldl_maxAbs_div (xs : List ℚ) (a m : ℚ) (hm : 0 < m) :
    (xs.map (fun s => s / m)).foldl (fun u b => max u |b|) (a / m) =
    (xs.foldl (fun u b => max u |b|) a) / m := by
  induction xs generalizing a with
  | nil => rfl
  | cons z zs ih =>
    simp only [List.map_cons, List.foldl_cons]
    rw [show |z / m| = |z| / m by rw [abs_div, abs_of_pos hm],
        max_div_div_right (le_of_lt hm), ih]

/-- Every sample of the normalized buffer has magnitude at most 1. -/
theorem normalize_bound (l : List ℚ) : ∀ x ∈ normalize l, |x| ≤ 1 := by
  intro x hx
  cases l with
  | nil => cases hx
  | cons z zs =>
    simp only [normalize, listPeak] at hx
    by_cases hm : 1 < zs.foldl (fun u b => max u |b|) |z|
    · rw [if_pos hm] at hx
      rcases List.mem_map.mp hx with ⟨y, hy, rfl⟩
      have hpos : 0 < zs.foldl (fun u b => max u |b|) |z| := lt_trans one_pos hm
      have hy' : |y| ≤ zs.foldl (fun u b => max u |b|) |z| := by
        rcases List.mem_cons.mp hy with h | h
        · subst h; exact foldl_maxAbs_init_le zs |y|
        · exact foldl_maxAbs_mem_le zs |z| y h
      rw [abs_div, abs_of_pos hpos, div_le_one hpos]
      exact hy'
    · rw [if_neg hm] at hx
      have hx' : |x| ≤ zs.foldl (fun u b => max u |b|) |z| := by
        rcases List.mem_cons.mp hx with h | h
        · subst h; exact foldl_maxAbs_init_le zs |x|
        · exact foldl_maxAbs_mem_le zs |z| x h
      exact le_trans hx' (not_lt.mp hm)

/-- A buffer whose peak does not exceed 1 is left untouched. -/
theorem normalize_of_bounded (l : List ℚ) (h : ∀ x ∈ l, |x| ≤ 1) :
    normalize l = l := by
  cases l with
  | nil => rfl
  | cons z zs =>
    simp only [normalize, listPeak]
    rw [if_neg]
    push_neg
    rcases foldl_maxAbs_attained zs |z| with he | ⟨y, hy, he⟩
    · rw [he]; exact h z (List.mem_cons_self z zs)
    · rw [he]; exact h y (List.mem_cons_of_mem z hy)

/-- `normalize` through a known peak. -/
theorem normalize_eq_of_peak (m : List ℚ) (p : ℚ) (hp : listPeak m = some p) :
    normalize m = if 1 < p then m.map (fun s => s / p) else m := by
  unfold normalize
  rw [hp]

/-- Normalization is idempotent. -/
theorem normalize_idempotent (l : List ℚ) :
    normalize (normalize l) = normalize l := by
  cases l with
  | nil => rfl
  | cons z zs =>
    set M := zs.foldl (fun u b => max u |b|) |z| with hM
    have hpk : listPeak (z :: zs) = some M := rfl
    by_cases hm : 1 < M
    · have hpos : 0 < M := lt_trans one_pos hm
      have habs : |z / M| = |z| / M := by rw [abs_div, abs_of_pos hpos]
      have h1 : normalize (z :: zs) = (z :: zs).map (fun s => s / M) := by
        rw [normalize_eq_of_peak _ _ hpk, if_pos hm]
      have h2 : listPeak ((z :: zs).map (fun s => s / M)) = some 1 := by
        show some ((zs.map (fun s => s / M)).foldl (fun u b => max u |b|) |z / M|) = some 1
        rw [habs, foldl_maxAbs_div zs |z| M hpos, ← hM, div_self (ne_of_gt hpos)]
      rw [h1, normalize_eq_of_peak _ _ h2, if_neg (lt_irrefl 1)]
    · rw [normalize_eq_of_peak _ _ hpk, if_neg hm, normalize_eq_of_peak _ _ hpk, if_neg hm]

/-- C7: the renderer's final normalization leaves a buffer with peak ≤ 1
bit-identical, divides every sample by the peak exactly when the peak
exceeds 1, is idempotent, and is precisely the last step of
`synthesize_arrangement_private`. -/
theorem c7_normalization_step (l : List ℚ) (h : ∀ x ∈ l, |x| ≤ 1) :
    normalize l = l ∧
    (∀ m : List ℚ, normalize (normalize m) = normalize m) ∧
    (∀ (m : List ℚ) (p : ℚ), listPeak m = some p → 1 < p →
      normalize m = m.map (fun s => s / p)) ∧
    (∀ sinF cosF noise sr arrangement params k,
      synthesizeArrangementPrivate sinF cosF noise sr arrangement params k =
        (prenormBuffer sinF cosF noise sr arrangement params k).map normalize) := by
  refine ⟨normalize_of_bounded l h, normalize_idempotent, ?_, fun _ _ _ _ _ _ _ => rfl⟩
  intro m p hp h1
  cases m with
  | nil => cases hp
  | cons z zs =>
    simp only [listPeak, Option.some.injEq] at hp
    simp only [normalize, listPeak]
    rw [hp, if_pos h1]

/-- C7 witness: the buffer `[1/2, -1]` has peak 1 and satisfies the
bounded-peak hypothesis. -/
theorem c7_normalization_witness :
    (∀ x ∈ ([1/2, -1] : List ℚ), |x| ≤ 1) ∧
    (normalize [1/2, -1] = [1/2, -1] ∧
     (∀ m : List ℚ, normalize (normalize m) = normalize m) ∧
     (∀ (m : List ℚ) (p : ℚ), listPeak m = some p → 1 < p →
       normalize m = m.map (fun s => s / p)) ∧
     (∀ sinF cosF noise sr arrangement params k,
       synthesizeArrangementPrivate sinF cosF noise sr arrangement params k =
         (prenormBuffer sinF cosF noise sr arrangement params k).map normalize)) :=
  ⟨by decide, c7_normalization_step [1/2, -1] (by decide)⟩

/-- C6: `parse_note` fails exactly when the uppercased first character is
not one of C, D, E, F, G, A, B (in particular on the empty string); on
success it returns base frequency × accidental factor × octave factor; and
the concrete values hold: A4 = 440 within 10⁻³ (exactly 440 in exact
arithmetic), C0 = 16.35, and Db4 within 0.2 % of C#4. -/
theorem c6_parse_note (l : List Char) (c : Char) (b : ℚ)
    (hc : headUpper l = some c) (hb : noteBase c = some b) :
    parseNote l = .ok (b * accPart l * octPart l) ∧
    (∀ s : List Char, (parseNote s).isOk = true ↔
      ∃ c', headUpper s = some c' ∧ (noteBase c').isSome = true) ∧
    (∃ v, parseNote ("A4".toList) = .ok v ∧ |v - 440| ≤ 1/1000) ∧
    parseNote ("C0".toList) = .ok 16.35 ∧
    (∃ v1 v2, parseNote ("Db4".toList) = .ok v1 ∧ parseNote ("C#4".toList) = .ok v2 ∧
      |v1 - v2| ≤ (2/1000) * v2) := by
  refine ⟨?_, ?_, ⟨440, by decide⟩, by decide,
    ⟨173200879/625000, 346444401/1250000, by decide⟩⟩
  · cases l with
    | nil => cases hc
    | cons c0 rest =>
      simp only [headUpper, List.head?_cons, Option.map_some', Option.some.injEq] at hc
      subst hc
      cases rest with
      | nil =>
        simp only [parseNote, accPart, octPart, List.map_cons, List.map_nil, hb,
          List.head?_nil, List.drop_nil, List.drop_succ_cons, List.drop_zero]
        rw [if_neg (by simp)]
        simp [mul_one]
      | cons c2 rest2 =>
        by_cases hacc : isAccidentalChar c2.toUpper
        · simp only [parseNote, accPart, octPart, List.map_cons, hb, List.head?_cons,
            List.headD_cons, List.drop_succ_cons, List.drop_zero, hacc, if_true]
        · simp only [parseNote, accPart, octPart, List.map_cons, hb, List.head?_cons,
            List.headD_cons, List.drop_succ_cons, List.drop_zero, hacc, if_false]
          simp [hacc]
  · intro s
    cases s with
    | nil => simp [parseNote, headUpper, Except.isOk, Except.toBool]
    | cons c0 rest =>
      simp only [headUpper, List.head?_cons, Option.map_some', Option.some.injEq]
      cases hnb : noteBase c0.toUpper with
      | none =>
        simp only [parseNote, List.map_cons, hnb, Except.isOk]
        constructor
        · intro h; cases h
        · rintro ⟨c', rfl, hs⟩
          rw [hnb] at hs
          simp at hs
      | some b' =>
        simp only [parseNote, List.map_cons, hnb, Except.isOk]
        constructor
        · intro _
          exact ⟨c0.toUpper, rfl, by rw [hnb]; rfl⟩
        · intro _
          rfl

/-- C6 witness: the input "A4" has first character `A` with base frequency
27.5 Hz. -/
theorem c6_parse_note_witness :
    (headUpper ("A4".toList) = some 'A' ∧ noteBase 'A' = some 27.5) ∧
    (parseNote ("A4".toList) = .ok (27.5 * accPart ("A4".toList) * octPart ("A4".toList)) ∧
     (∀ s : List Char, (parseNote s).isOk = true ↔
       ∃ c', headUpper s = some c' ∧ (noteBase c').isSome = true) ∧
     (∃ v, parseNote ("A4".toList) = .ok v ∧ |v - 440| ≤ 1/1000) ∧
     parseNote ("C0".toList) = .ok 16.35 ∧
     (∃ v1 v2, parseNote ("Db4".toList) = .ok v1 ∧ parseNote ("C#4".toList) = .ok v2 ∧
       |v1 - v2| ≤ (2/1000) * v2)) :=
  ⟨⟨by decide, by decide⟩, c6_parse_note ("A4".toList) 'A' 27.5 (by decide) (by decide)⟩

/-- `strip_prefix` fails on a mismatched first character. -/
theorem strip?_cons_ne (p c : Char) (ps cs : List Char) (h : ¬ p = c) :
    strip? (p :: ps) (c :: cs) = none := by
  unfold strip?
  rw [if_neg h]

/-- `strip_prefix` removes an exact leading pattern. -/
theorem strip?_self_append (p l : List Char) : strip? p (p ++ l) = some l := by
  induction p with
  | nil => rfl
  | cons c cs ih =>
    show strip? (c :: cs) (c :: (cs ++ l)) = some l
    unfold strip?
    rw [if_pos rfl]
    exact ih

/-- C10: a `track:` line whose start time parses but whose melody name is
not in the cache is skipped without error and with the arrangement
unchanged (the warning is an `eprintln` side effect, outside the model);
`from_bmi` returns `Ok` only with at least one track; and it returns
`Err(InvalidInstrument)` exactly when the (successfully folded) line loop
produced zero tracks, every other error being a start-time `ParseError`
propagated from the fold. -/
theorem c10_from_bmi (parseF : List Char → Option ℚ)
    (cache : List Char → Option MelodyTrack) (arr a : Arrangement)
    (line rest content : List Char) (st : ℚ)
    (hline : trimChars line = 't' :: 'r' :: 'a' :: 'c' :: 'k' :: ':' :: rest)
    (hparts : 2 ≤ ((splitOnChar ',' rest).map trimChars).length)
    (hstart : parseF (((splitOnChar ',' rest).map trimChars).getD 1 []) = some st)
    (hmiss : cache (((splitOnChar ',' rest).map trimChars).getD 0 []) = none)
    (hok : fromBmi parseF cache content = .ok a) :
    processBmiLine parseF cache arr line = .ok arr ∧
    a.tracks ≠ [] ∧
    (∀ content' : List Char, fromBmi parseF cache content' =
      match bmiFold parseF cache content' with
      | .error e => .error e
      | .ok arrangement =>
        if arrangement.tracks = [] then
          .error (SynthError.InvalidInstrument "Arrangement has no valid tracks")
        else .ok arrangement) := by
  refine ⟨?_, ?_, fun _ => rfl⟩
  · have e0 : ("//".toList : List Char) = '/' :: '/' :: [] := rfl
    have e1 : ("name:".toList : List Char) = 'n' :: 'a' :: 'm' :: 'e' :: ':' :: [] := rfl
    have e2 : ("master_tempo:".toList : List Char) =
      'm' :: 'a' :: 's' :: 't' :: 'e' :: 'r' :: '_' :: 't' :: 'e' :: 'm' :: 'p' :: 'o' :: ':' :: [] := rfl
    have e3 : ("fade_in:".toList : List Char) =
      'f' :: 'a' :: 'd' :: 'e' :: '_' :: 'i' :: 'n' :: ':' :: [] := rfl
    have e4 : ("fade_out:".toList : List Char) =
      'f' :: 'a' :: 'd' :: 'e' :: '_' :: 'o' :: 'u' :: 't' :: ':' :: [] := rfl
    have e5 : ("loop:".toList : List Char) = 'l' :: 'o' :: 'o' :: 'p' :: ':' :: [] := rfl
    have e6 : ("track:".toList : List Char) = 't' :: 'r' :: 'a' :: 'c' :: 'k' :: ':' :: [] := rfl
    unfold processBmiLine
    rw [hline, e0, e1, e2, e3, e4, e5, e6]
    rw [if_neg (by simp)]
    rw [strip?_cons_ne _ _ _ _ (by decide)]
    rw [strip?_cons_ne _ _ _ _ (by decide)]
    rw [strip?_cons_ne _ _ _ _ (by decide)]
    rw [strip?_cons_ne _ _ _ _ (by decide)]
    rw [strip?_cons_ne _ _ _ _ (by decide)]
    rw [strip?_cons_ne _ _ _ _ (by decide)]
    rw [show strip? ('t' :: 'r' :: 'a' :: 'c' :: 'k' :: ':' :: [])
          ('t' :: 'r' :: 'a' :: 'c' :: 'k' :: ':' :: rest) = some rest from
        strip?_self_append ('t' :: 'r' :: 'a' :: 'c' :: 'k' :: ':' :: []) rest]
    simp only [Option.isSome_none, Bool.false_eq_true, if_false]
    rw [if_pos hparts, hstart, hmiss]
  · unfold fromBmi at hok
    split at hok
    · simp at hok
    · split_ifs at hok with hz
      injection hok with h
      exact h ▸ hz

/-- A minimal cached melody used by the C10 witness. -/
def trkW : MelodyTrack :=
  { name := "m".toList, instrument := Instrument.base, sequence := [], tempo := 120,
    length := 0, loop_point := none, time_signature := (4, 4), swing := 0 }

/-- The arrangement `from_bmi` produces on the input "track: m, 1" with
`trkW` cached under "m". -/
def arrW : Arrangement :=
  { name := "song".toList, tracks := [(trkW, 1, TrackOverrides.base)], total_length := 1,
    loop_point := none, master_tempo := none, fade_in := none, fade_out := none }

/-- A concrete `str::parse::<f32>` model accepting integer literals. -/
def parseFW : List Char → Option ℚ := fun l => (parseI32 l).map (fun i => (i : ℚ))

/-- A concrete melody cache holding only "m". -/
def cacheW : List Char → Option MelodyTrack :=
  fun n => if n = "m".toList then some trkW else none

/-- C10 witness: the line "track: ghost, 1" (melody not cached, start time
parses) and the content "track: m, 1" (one resolvable track). -/
theorem c10_from_bmi_witness :
    (trimChars ("track: ghost, 1".toList) =
       't' :: 'r' :: 'a' :: 'c' :: 'k' :: ':' :: (" ghost, 1".toList) ∧
     2 ≤ ((splitOnChar ',' (" ghost, 1".toList)).map trimChars).length ∧
     parseFW (((splitOnChar ',' (" ghost, 1".toList)).map trimChars).getD 1 []) = some 1 ∧
     cacheW (((splitOnChar ',' (" ghost, 1".toList)).map trimChars).getD 0 []) = none ∧
     fromBmi parseFW cacheW ("track: m, 1".toList) = .ok arrW) ∧
    (processBmiLine parseFW cacheW arrW ("track: ghost, 1".toList) = .ok arrW ∧
     arrW.tracks ≠ [] ∧
     (∀ content' : List Char, fromBmi parseFW cacheW content' =
       match bmiFold parseFW cacheW content' with
       | .error e => .error e
       | .ok arrangement =>
         if arrangement.tracks = [] then
           .error (SynthError.InvalidInstrument "Arrangement has no valid tracks")
         else .ok arrangement)) :=
  ⟨⟨by decide, by decide, by decide, by decide, by decide⟩,
   c10_from_bmi parseFW cacheW arrW arrW ("track: ghost, 1".toList) (" ghost, 1".toList)
     ("track: m, 1".toList) 1 (by decide) (by decide) (by decide) (by decide) (by decide)⟩

/-- `0 as usize` is 0. -/
theorem f32ToUsize_zero : f32ToUsize 0 = 0 := by decide

/-- The arrangement being played in the C2 counterexample (no tracks,
100-second length). -/
def arrB2 : Arrangement := ⟨[], [], 100, none, none, none, none⟩

/-- The crossfade target of the C2 counterexample. -/
def arrA2 : Arrangement := ⟨"a".toList, [], 100, none, none, none, none⟩

/-- A playing context 5 samples into `arrB2`. -/
def ctxB2 : PlaybackContext :=
  { arrangement := arrB2, current_sample := 5, state := .Playing, loop_enabled := false,
    dynamic_params := DynamicParameters.base, param_interpolators := fun _ => none,
    crossfade_state := none }

/-- C2 counterexample: with playback 5 samples into an arrangement,
`crossfade_to(A, 0.0)` followed by one callback frame leaves the playback
position at 6, whereas `play_arrangement(A)` followed by one frame leaves
it at 1 — the two paths do not produce the same state. -/
theorem c2_crossfade_zero_counterexample :
    ((callbackFrame (fun _ => 0) (fun _ => 0) 4 (crossfadeTo (some ctxB2) arrA2 0 4) 0).1).map
      (fun x => x.current_sample) = some 6 ∧
    ((callbackFrame (fun _ => 0) (fun _ => 0) 4 (some (playArrangementCtx arrA2)) 0).1).map
      (fun x => x.current_sample) = some 1 ∧
    (6 : ℕ) ≠ 1 := by decide

/-- C2 (amended): while playing with looping off, `crossfade_to(A, 0.0)`
followed by one callback frame does install A as the current arrangement
with no pending crossfade and state `Playing` (when the advanced position
is still inside A), but the playback position advances from its previous
value instead of restarting at 0, and the previous dynamic parameters are
retained; `play_arrangement(A)` followed by one frame instead always sits
at position 1 of a freshly seeded context. -/
theorem c2_crossfade_zero_vs_play (c : PlaybackContext) (A : Arrangement)
    (sinF : ℚ → ℚ) (noise : ℕ → ℚ) (sr : ℚ) (k : ℕ)
    (hplay : c.state = PlaybackState.Playing)
    (hloop : c.loop_enabled = false)
    (hwithin : c.current_sample + 1 < f32ToUsize (A.total_length * sr)) :
    ((callbackFrame sinF noise sr (crossfadeTo (some c) A 0 sr) k).1).map
      (fun x => (x.arrangement, x.current_sample, x.crossfade_state, x.state,
        x.dynamic_params.master_volume))
      = some (A, c.current_sample + 1, none, PlaybackState.Playing,
          c.dynamic_params.master_volume) ∧
    ((callbackFrame sinF noise sr (some (playArrangementCtx A)) k).1).map
      (fun x => x.current_sample) = some 1 := by
  constructor
  · have hw' : ¬ (f32ToUsize (A.total_length * sr) ≤ c.current_sample + 1) :=
      not_le.mpr hwithin
    unfold crossfadeTo callbackFrame
    simp only [hplay, zero_mul, f32ToUsize_zero, Nat.cast_zero, ne_eq, not_true_eq_false,
      if_false, ite_false, hloop, zero_add, zero_le_one, if_true, ite_true, hw',
      Bool.false_eq_true, Option.map_some']
  · have hA : (playArrangementCtx A).state = PlaybackState.Playing := rfl
    have hl : (playArrangementCtx A).loop_enabled = false := rfl
    have hcs : (playArrangementCtx A).current_sample = 0 := rfl
    have hcf : (playArrangementCtx A).crossfade_state = none := rfl
    unfold callbackFrame
    simp only [hA, hl, hcs, hcf, ne_eq, not_true_eq_false, if_false, ite_false,
      Bool.false_eq_true, Option.map_some', zero_add]
    by_cases hP : f32ToUsize ((playArrangementCtx A).arrangement.total_length * sr) ≤ 1
    · simp [hP]
    · simp [hP]

/-- C2 witness: the concrete playing context `ctxB2` and target `arrA2` at
sample rate 4 satisfy the hypotheses of `c2_crossfade_zero_vs_play`. -/
theorem c2_crossfade_zero_witness :
    (ctxB2.state = PlaybackState.Playing ∧ ctxB2.loop_enabled = false ∧
     ctxB2.current_sample + 1 < f32ToUsize (arrA2.total_length * 4)) ∧
    (((callbackFrame (fun _ => 0) (fun _ => 0) 4 (crossfadeTo (some ctxB2) arrA2 0 4) 0).1).map
        (fun x => (x.arrangement, x.current_sample, x.crossfade_state, x.state,
          x.dynamic_params.master_volume))
        = some (arrA2, ctxB2.current_sample + 1, none, PlaybackState.Playing,
            ctxB2.dynamic_params.master_volume) ∧
     ((callbackFrame (fun _ => 0) (fun _ => 0) 4 (some (playArrangementCtx arrA2)) 0).1).map
        (fun x => x.current_sample) = some 1) :=
  ⟨⟨by decide, by decide, by decide⟩,
   c2_crossfade_zero_vs_play ctxB2 arrA2 (fun _ => 0) (fun _ => 0) 4 0
     (by decide) (by decide) (by decide)⟩

/-- The biquad filter does not touch the delay line. -/
theorem applyFilter_delay_buffer (sinF cosF : ℚ → ℚ) (st : EffectsState) (x : ℚ)
    (p : FilterParams) :
    (applyFilter sinF cosF st x p).2.delay_buffer = st.delay_buffer := by
  rcases p with ⟨cutoff, res, ft⟩
  cases ft <;> rfl

/-- The reverb does not touch the delay line. -/
theorem applyReverb_delay_buffer (st : EffectsState) (x : ℚ) (p : ReverbParams) :
    (applyReverb st x p).2.delay_buffer = st.delay_buffer := by
  unfold applyReverb
  rcases hc : combLoop x p.room_size p.damping st.comb_buffers st.comb_filter_state 0
    with ⟨cb, cs, sum⟩
  dsimp only

/-- `apply_delay` succeeds on a nonempty delay line and preserves its
length. -/
theorem applyDelay_some (st : EffectsState) (x : ℚ) (d : DelayParams)
    (h : 1 ≤ st.delay_buffer.length) :
    ∃ y st', applyDelay st x d = some (y, st') ∧
      st'.delay_buffer.length = st.delay_buffer.length := by
  unfold applyDelay
  rw [if_neg (by omega)]
  exact ⟨_, _, rfl, cycleBuffer_length _ _ h⟩

/-- The whole effects chain step succeeds whenever the delay line is
nonempty, and it preserves the delay line's length. -/
theorem processSample_some (sinF cosF : ℚ → ℚ) (st : EffectsState) (x : ℚ)
    (effects : EffectsChain) (h : 1 ≤ st.delay_buffer.length) :
    ∃ y st', processSample sinF cosF st x effects = some (y, st') ∧
      st'.delay_buffer.length = st.delay_buffer.length := by
  unfold processSample
  obtain ⟨o1, st1, h1, hd1⟩ :
      ∃ o1 st1, (match effects.filter with
        | some f => applyFilter sinF cosF st x f
        | none => (x, st)) = (o1, st1) ∧ st1.delay_buffer = st.delay_buffer := by
    cases effects.filter with
    | none => exact ⟨x, st, rfl, rfl⟩
    | some f =>
      rcases hf : applyFilter sinF cosF st x f with ⟨o1, st1⟩
      refine ⟨o1, st1, hf, ?_⟩
      have := applyFilter_delay_buffer sinF cosF st x f
      rw [hf] at this
      exact this
  rw [h1]
  dsimp only
  obtain ⟨o2, st2, h2, hd2⟩ :
      ∃ o2 st2, (match effects.distortion with
        | some d => applyDistortion st1 o1 d
        | none => (o1, st1)) = (o2, st2) ∧ st2.delay_buffer = st1.delay_buffer := by
    cases effects.distortion with
    | none => exact ⟨o1, st1, rfl, rfl⟩
    | some d =>
      rcases hd : applyDistortion st1 o1 d with ⟨o2, st2⟩
      refine ⟨o2, st2, hd, ?_⟩
      have : (applyDistortion st1 o1 d).2.delay_buffer = st1.delay_buffer := rfl
      rw [hd] at this
      exact this
  rw [h2]
  dsimp only
  have h2len : 1 ≤ st2.delay_buffer.length := by rw [hd2, hd1]; exact h
  cases effects.delay with
  | none =>
    cases effects.reverb with
    | none => exact ⟨o2, st2, rfl, by rw [hd2, hd1]⟩
    | some r =>
      dsimp only
      rcases hr : applyReverb st2 o2 r with ⟨o3, st3⟩
      have hv := applyReverb_delay_buffer st2 o2 r
      rw [hr] at hv
      exact ⟨o3, st3, rfl, by rw [hv, hd2, hd1]⟩
  | some d =>
    dsimp only
    obtain ⟨o3, st3, h3, hd3⟩ := applyDelay_some st2 o2 d h2len
    rw [h3]
    dsimp only
    cases effects.reverb with
    | none => exact ⟨o3, st3, rfl, by rw [hd3, hd2, hd1]⟩
    | some r =>
      dsimp only
      rcases hr : applyReverb st3 o3 r with ⟨o4, st4⟩
      have hv := applyReverb_delay_buffer st3 o3 r
      rw [hr] at hv
      exact ⟨o4, st4, rfl, by rw [hv, hd3, hd2, hd1]⟩

/-- `processChunk` succeeds on a nonempty delay line, yields a chunk of the
same length, and preserves the delay line's length. -/
theorem processChunk_some (sinF cosF : ℚ → ℚ) (effects : EffectsChain)
    (chunk : List ℚ) :
    ∀ st : EffectsState, 1 ≤ st.delay_buffer.length →
    ∃ ys st', processChunk sinF cosF effects st chunk = some (ys, st') ∧
      ys.length = chunk.length ∧
      st'.delay_buffer.length = st.delay_buffer.length := by
  induction chunk with
  | nil => intro st _; exact ⟨[], st, rfl, rfl, rfl⟩
  | cons x xs ih =>
    intro st h
    obtain ⟨y, st1, h1, hd1⟩ := processSample_some sinF cosF st x effects h
    have h1len : 1 ≤ st1.delay_buffer.length := by rw [hd1]; exact h
    obtain ⟨ys, st2, h2, hlen, hd2⟩ := ih st1 h1len
    refine ⟨y :: ys, st2, ?_, by simp [hlen], by rw [hd2, hd1]⟩
    unfold processChunk
    rw [h1]
    dsimp only
    rw [h2]

/-- The synthesized-note sample loop preserves the buffer length. -/
theorem noteSynthLoop_length (sinF : ℚ → ℚ) (noise : ℕ → ℚ) (sr : ℚ)
    (wv : WaveformType) (note : Note) (nd : ℚ) (instr : Instrument) (base : ℕ) :
    ∀ (remaining i : ℕ) (phase : ℚ) (buffer : List ℚ) (k : ℕ),
    ((noteSynthLoop sinF noise sr wv note nd instr base i remaining phase buffer k).1).length
      = buffer.length := by
  intro remaining
  induction remaining with
  | zero => intro i phase buffer k; rfl
  | succ r ih =>
    intro i phase buffer k
    unfold noteSynthLoop
    dsimp only
    split_ifs with h
    · rfl
    all_goals rw [ih]; simp

/-- The PCM-note sample loop preserves the buffer length. -/
theorem noteSampleLoop_length (sr : ℚ) (sd : SampleData) (par ad vel : ℚ)
    (instr : Instrument) (base : ℕ) :
    ∀ (remaining i : ℕ) (buffer : List ℚ),
    (noteSampleLoop sr sd par ad vel instr base i remaining buffer).length
      = buffer.length := by
  intro remaining
  induction remaining with
  | zero => intro i buffer; rfl
  | succ r ih =>
    intro i buffer
    unfold noteSampleLoop
    dsimp only
    split_ifs with h
    · rfl
    · rw [ih]
      simp

/-- The chord inner sample loop preserves the buffer length. -/
theorem chordSynthLoop_length (sinF : ℚ → ℚ) (noise : ℕ → ℚ) (sr : ℚ)
    (src : InstrumentSource) (chord : Chord) (cd : ℚ) (instr : Instrument)
    (pitch : ℚ) (base : ℕ) :
    ∀ (remaining i : ℕ) (phase : ℚ) (buffer : List ℚ) (k : ℕ),
    ((chordSynthLoop sinF noise sr src chord cd instr pitch base i remaining phase buffer k).1).length
      = buffer.length := by
  intro remaining
  induction remaining with
  | zero => intro i phase buffer k; rfl
  | succ r ih =>
    intro i phase buffer k
    unfold chordSynthLoop
    dsimp only
    split_ifs with h
    · rfl
    all_goals
      cases src with
      | Synthesized wv => dsimp only; rw [ih]; simp
      | Sample sd => dsimp only; rw [ih]

/-- The chord outer loop preserves the buffer length. -/
theorem chordLoop_length (sinF : ℚ → ℚ) (noise : ℕ → ℚ) (sr : ℚ)
    (src : InstrumentSource) (chord : Chord) (cd : ℚ) (instr : Instrument)
    (base cs : ℕ) :
    ∀ (pitches : List ℚ) (buffer : List ℚ) (k : ℕ),
    ((chordLoop sinF noise sr src chord cd instr base cs pitches buffer k).1).length
      = buffer.length := by
  intro pitches
  induction pitches with
  | nil => intro buffer k; rfl
  | cons p ps ih =>
    intro buffer k
    unfold chordLoop
    rcases hc : chordSynthLoop sinF noise sr src chord cd instr p base 0 cs 0 buffer k
      with ⟨buffer1, k1⟩
    dsimp only
    rw [ih]
    have := chordSynthLoop_length sinF noise sr src chord cd instr p base cs 0 0 buffer k
    rw [hc] at this
    exact this

/-- One sequence-element step preserves the buffer length. -/
theorem trackElementStep_length (sinF : ℚ → ℚ) (noise : ℕ → ℚ) (sr : ℚ)
    (track : MelodyTrack) (bd : ℚ) (acc : List ℚ × ℕ × ℕ)
    (element : SequenceElement) (ss : ℕ) :
    ((trackElementStep sinF noise sr track bd acc element ss).1).length = acc.1.length := by
  rcases acc with ⟨buffer, current_sample, k⟩
  cases element with
  | Note note =>
    unfold trackElementStep
    dsimp only
    cases track.instrument.source with
    | Synthesized wv =>
      dsimp only
      rcases hl : noteSynthLoop sinF noise sr wv note (note.duration * bd) track.instrument
          (ss + current_sample) 0 (f32ToUsize (note.duration * bd * sr)) 0 buffer k
        with ⟨buf', k'⟩
      have := noteSynthLoop_length sinF noise sr wv note (note.duration * bd) track.instrument
        (ss + current_sample) (f32ToUsize (note.duration * bd * sr)) 0 0 buffer k
      rw [hl] at this
      exact this
    | Sample sd =>
      dsimp only
      exact noteSampleLoop_length sr sd track.instrument.pitch _ note.velocity
        track.instrument (ss + current_sample) _ 0 buffer
  | Chord chord =>
    unfold trackElementStep
    dsimp only
    rcases hl : chordLoop sinF noise sr track.instrument.source chord
        (chord.duration * bd) track.instrument (ss + current_sample)
        (f32ToUsize (chord.duration * bd * sr)) chord.pitches buffer k
      with ⟨buf', k'⟩
    have := chordLoop_length sinF noise sr track.instrument.source chord
      (chord.duration * bd) track.instrument (ss + current_sample)
      (f32ToUsize (chord.duration * bd * sr)) chord.pitches buffer k
    rw [hl] at this
    exact this
  | Rest d => rfl

/-- `synthesize_track_into` preserves the buffer length. -/
theorem synthesizeTrackInto_length (sinF : ℚ → ℚ) (noise : ℕ → ℚ) (sr : ℚ)
    (buffer : List ℚ) (track : MelodyTrack) (ss k : ℕ) :
    ((synthesizeTrackInto sinF noise sr buffer track ss k).1).length = buffer.length := by
  have key : ∀ (seq : List SequenceElement) (acc : List ℚ × ℕ × ℕ),
      ((seq.foldl (fun a e => trackElementStep sinF noise sr track (60 / track.tempo) a e ss)
          acc).1).length = acc.1.length := by
    intro seq
    induction seq with
    | nil => intro acc; rfl
    | cons e es ih =>
      intro acc
      rw [List.foldl_cons, ih, trackElementStep_length]
  unfold synthesizeTrackInto
  dsimp only
  rcases hf : track.sequence.foldl
      (fun a e => trackElementStep sinF noise sr track (60 / track.tempo) a e ss)
      (buffer, 0, k) with ⟨buf, cs, k'⟩
  have := key track.sequence (buffer, 0, k)
  rw [hf] at this
  exact this

/-- Mixing a chunk into the master buffer preserves its length. -/
theorem mixChunk_length (mv : ℚ) :
    ∀ (chunk buffer : List ℚ) (idx : ℕ),
    (mixChunk mv buffer idx chunk).length = buffer.length := by
  intro chunk
  induction chunk with
  | nil => intro buffer idx; rfl
  | cons s rest ih =>
    intro buffer idx
    unfold mixChunk
    rw [ih]
    simp

/-- `Rat.floor` is the `⌊·⌋` of ℚ's `FloorRing` instance. -/
theorem ratFloor_eq_intFloor (q : ℚ) : Rat.floor q = ⌊q⌋ := rfl

/-- The `2·sr`-sample delay buffer is nonempty for any `sr ≥ 1`. -/
theorem one_le_f32ToUsize_two_mul (sr : ℚ) (h : 1 ≤ sr) : 1 ≤ f32ToUsize (sr * 2) := by
  unfold f32ToUsize
  have h2 : (1 : ℤ) ≤ ⌊sr * 2⌋ := Int.le_floor.mpr (by push_cast; linarith)
  omega

/-- The chunk loop always succeeds (given a healthy effects state) and
preserves the master buffer's length. -/
theorem chunkLoop_some (sinF cosF : ℚ → ℚ) (noise : ℕ → ℚ) (sr : ℚ)
    (t : MelodyTrack) (mv : ℚ) (ss tts : ℕ) :
    ∀ (fuel offset : ℕ) (buffer : List ℚ) (fx : Option EffectsState) (k : ℕ),
    (∀ st, fx = some st → 1 ≤ st.delay_buffer.length) →
    ∃ buf' fx' k', chunkLoop sinF cosF noise sr t mv ss tts fuel offset buffer fx k
        = some (buf', fx', k') ∧ buf'.length = buffer.length := by
  intro fuel
  induction fuel with
  | zero => intro offset buffer fx k _; exact ⟨buffer, fx, k, rfl, rfl⟩
  | succ f ih =>
    intro offset buffer fx k hfx
    unfold chunkLoop
    dsimp only
    split_ifs with hoff
    · rcases hsti : synthesizeTrackInto sinF noise sr
          (List.replicate (min 1024 (tts - offset)) 0) t offset k with ⟨chunk1, k1⟩
      dsimp only
      cases fx with
      | none =>
        dsimp only
        obtain ⟨buf', fx', k', hrec, hlen⟩ := ih (offset + min 1024 (tts - offset))
          (mixChunk mv buffer (ss + offset) chunk1) none k1
          (by intro st hst; cases hst)
        exact ⟨buf', fx', k', hrec, by rw [hlen, mixChunk_length]⟩
      | some st =>
        dsimp only
        have hst : 1 ≤ st.delay_buffer.length := hfx st rfl
        obtain ⟨ys, st', hpc, _, hd⟩ :=
          processChunk_some sinF cosF t.instrument.effects chunk1 st hst
        rw [hpc]
        dsimp only
        obtain ⟨buf', fx', k', hrec, hlen⟩ := ih (offset + min 1024 (tts - offset))
          (mixChunk mv buffer (ss + offset) ys) (some st') k1
          (by intro s hs
              injection hs with hs
              rw [← hs, hd]
              exact hst)
        exact ⟨buf', fx', k', hrec, by rw [hlen, mixChunk_length]⟩
    · exact ⟨buffer, fx, k, rfl, rfl⟩

/-- One placed track always renders (for `sr ≥ 1`) and preserves the master
buffer's length. -/
theorem renderTrack_some (sinF cosF : ℚ → ℚ) (noise : ℕ → ℚ) (sr : ℚ)
    (params : DynamicParameters) (acc : List ℚ × ℕ)
    (placed : MelodyTrack × ℚ × TrackOverrides) (hsr : 1 ≤ sr) :
    ∃ buf' k', renderTrack sinF cosF noise sr params acc placed = some (buf', k') ∧
      buf'.length = acc.1.length := by
  rcases acc with ⟨buffer, k⟩
  rcases placed with ⟨track, start_time, ov⟩
  unfold renderTrack
  dsimp only
  split_ifs with hen hany
  · obtain ⟨buf', fx', k', hcl, hlen⟩ := chunkLoop_some sinF cosF noise sr
      (applyOverrides track ov params.master_pitch ((params.track_volumes track.name).getD 1))
      params.master_volume
      (f32ToUsize (start_time * sr))
      (f32ToUsize ((applyOverrides track ov params.master_pitch
        ((params.track_volumes track.name).getD 1)).length * sr))
      (f32ToUsize ((applyOverrides track ov params.master_pitch
        ((params.track_volumes track.name).getD 1)).length * sr))
      0 buffer (some (EffectsState.new sr)) k
      (by intro st hst
          injection hst with hst
          rw [← hst]
          show 1 ≤ (List.replicate (f32ToUsize (sr * 2)) (0:ℚ)).length
          rw [List.length_replicate]
          exact one_le_f32ToUsize_two_mul sr hsr)
    rw [hcl]
    exact ⟨buf', k', rfl, hlen⟩
  · obtain ⟨buf', fx', k', hcl, hlen⟩ := chunkLoop_some sinF cosF noise sr
      (applyOverrides track ov params.master_pitch ((params.track_volumes track.name).getD 1))
      params.master_volume
      (f32ToUsize (start_time * sr))
      (f32ToUsize ((applyOverrides track ov params.master_pitch
        ((params.track_volumes track.name).getD 1)).length * sr))
      (f32ToUsize ((applyOverrides track ov params.master_pitch
        ((params.track_volumes track.name).getD 1)).length * sr))
      0 buffer none k
      (by intro st hst; cases hst)
    rw [hcl]
    exact ⟨buf', k', rfl, hlen⟩
  · exact ⟨buffer, k, rfl, rfl⟩

/-- The full track fold always renders (for `sr ≥ 1`) and preserves the
master buffer's length. -/
theorem renderTracks_some (sinF cosF : ℚ → ℚ) (noise : ℕ → ℚ) (sr : ℚ)
    (params : DynamicParameters) (hsr : 1 ≤ sr) :
    ∀ (ts : List (MelodyTrack × ℚ × TrackOverrides)) (acc : List ℚ × ℕ),
    ∃ buf' k', renderTracks sinF cosF noise sr params ts acc = some (buf', k') ∧
      buf'.length = acc.1.length := by
  intro ts
  induction ts with
  | nil =>
    intro acc
    rcases acc with ⟨b, k⟩
    exact ⟨b, k, rfl, rfl⟩
  | cons p ps ih =>
    intro acc
    obtain ⟨b1, k1, h1, hl1⟩ := renderTrack_some sinF cosF noise sr params acc p hsr
    obtain ⟨b2, k2, h2, hl2⟩ := ih (b1, k1)
    refine ⟨b2, k2, ?_, by rw [hl2]; exact hl1⟩
    unfold renderTracks
    rw [h1]
    exact h2

/-- The fade-in pass preserves the buffer length. -/
theorem applyFadeIn_length (sr : ℚ) (fi : Option ℚ) (buffer : List ℚ) :
    (applyFadeIn sr fi buffer).length = buffer.length := by
  cases fi with
  | none => rfl
  | some dur => simp [applyFadeIn]

/-- The fade-out pass preserves the buffer length. -/
theorem applyFadeOut_length (sr : ℚ) (fo : Option ℚ) (buffer : List ℚ) :
    (applyFadeOut sr fo buffer).length = buffer.length := by
  cases fo with
  | none => rfl
  | some dur => simp [applyFadeOut]

/-- Normalization preserves the buffer length. -/
theorem normalize_length (l : List ℚ) : (normalize l).length = l.length := by
  cases l with
  | nil => rfl
  | cons z zs =>
    rw [normalize_eq_of_peak (z :: zs) (zs.foldl (fun u b => max u |b|) |z|) rfl]
    split_ifs
    · simp
    · rfl

/-- C1 counterexample: with sample rate 2 and an arrangement of total
length 3/4 s, the rendered buffer has ⌊3/4·2⌋ = 1 sample, not
⌈3/4·2⌉ = 2 as the claim states: the Rust cast `as usize` truncates. -/
theorem c1_length_truncates_not_ceils :
    (synthesizeArrangementPrivate (fun _ => 0) (fun _ => 0) (fun _ => 0) 2
        ⟨[], [], 3/4, none, none, none, none⟩ DynamicParameters.base 0).map List.length
      = some 1 ∧
    (Rat.ceil ((3/4 : ℚ) * 2)).toNat = 2 ∧ (1 : ℕ) ≠ 2 := by decide

/-- C1 (amended): for every arrangement, parameters and sample rate ≥ 1,
the offline render succeeds and returns a buffer of exactly
⌊total_length · sr⌋ samples (truncating cast, saturating at zero), every
sample of which has absolute value at most 1. -/
theorem c1_offline_render_length_bound (sinF cosF : ℚ → ℚ) (noise : ℕ → ℚ)
    (sr : ℚ) (arrangement : Arrangement) (params : DynamicParameters) (k : ℕ)
    (hsr : 1 ≤ sr) :
    ∃ buf, synthesizeArrangementPrivate sinF cosF noise sr arrangement params k = some buf ∧
      buf.length = f32ToUsize (arrangement.total_length * sr) ∧
      ∀ x ∈ buf, |x| ≤ 1 := by
  unfold synthesizeArrangementPrivate prenormBuffer
  dsimp only
  obtain ⟨buf0, k', hrt, hlen⟩ := renderTracks_some sinF cosF noise sr params hsr
    arrangement.tracks
    (List.replicate (f32ToUsize (arrangement.total_length * sr)) 0, k)
  rw [hrt]
  dsimp only
  refine ⟨_, rfl, ?_, normalize_bound _⟩
  rw [normalize_length, applyFadeOut_length, applyFadeIn_length, hlen]
  simp

/-- C1 witness: sample rate 1 and a track-free arrangement of length 1. -/
theorem c1_offline_render_witness :
    (1 : ℚ) ≤ 1 ∧
    ∃ buf, synthesizeArrangementPrivate (fun _ => 0) (fun _ => 0) (fun _ => 0) 1
        ⟨[], [], 1, none, none, none, none⟩ DynamicParameters.base 0 = some buf ∧
      buf.length = f32ToUsize (((⟨[], [], 1, none, none, none, none⟩ : Arrangement)).total_length * 1) ∧
      ∀ x ∈ buf, |x| ≤ 1 :=
  ⟨le_refl 1,
   c1_offline_render_length_bound (fun _ => 0) (fun _ => 0) (fun _ => 0) 1
     ⟨[], [], 1, none, none, none, none⟩ DynamicParameters.base 0 (le_refl 1)⟩

/-- With no pitch override, the override application never reads
`master_pitch`. -/
theorem applyOverrides_master_pitch (track : MelodyTrack) (ov : TrackOverrides)
    (mp1 mp2 tv : ℚ) (h : ov.pitch = none) :
    applyOverrides track ov mp1 tv = applyOverrides track ov mp2 tv := by
  unfold applyOverrides
  rw [h]

/-- With no pitch override, one placed track renders identically under any
two master pitches. -/
theorem renderTrack_master_pitch (sinF cosF : ℚ → ℚ) (noise : ℕ → ℚ) (sr : ℚ)
    (params : DynamicParameters) (mp1 mp2 : ℚ) (acc : List ℚ × ℕ)
    (placed : MelodyTrack × ℚ × TrackOverrides) (h : placed.2.2.pitch = none) :
    renderTrack sinF cosF noise sr { params with master_pitch := mp1 } acc placed =
    renderTrack sinF cosF noise sr { params with master_pitch := mp2 } acc placed := by
  rcases acc with ⟨buffer, k⟩
  rcases placed with ⟨track, start_time, ov⟩
  unfold renderTrack
  dsimp only
  rw [applyOverrides_master_pitch track ov mp1 mp2 _ h]

/-- With no pitch overrides anywhere, the whole track fold renders
identically under any two master pitches. -/
theorem renderTracks_master_pitch (sinF cosF : ℚ → ℚ) (noise : ℕ → ℚ)
    (sr : ℚ) (params : DynamicParameters) (mp1 mp2 : ℚ) :
    ∀ (ts : List (MelodyTrack × ℚ × TrackOverrides)) (acc : List ℚ × ℕ),
    (∀ p ∈ ts, p.2.2.pitch = none) →
    renderTracks sinF cosF noise sr { params with master_pitch := mp1 } ts acc =
    renderTracks sinF cosF noise sr { params with master_pitch := mp2 } ts acc := by
  intro ts
  induction ts with
  | nil => intro acc _; rfl
  | cons p ps ih =>
    intro acc hall
    unfold renderTracks
    rw [renderTrack_master_pitch sinF cosF noise sr params mp1 mp2 acc p
      (hall p (List.mem_cons_self p ps))]
    cases hres : renderTrack sinF cosF noise sr { params with master_pitch := mp2 } acc p with
    | none => rfl
    | some acc' =>
      exact ih acc' (fun q hq => hall q (List.mem_cons_of_mem p hq))

/-- C8: when no placed track carries a pitch override, `master_pitch` has
no effect on the offline render — it is folded into the instrument pitch
only inside the `Some` pitch-override branch. -/
theorem c8_master_pitch_no_effect (sinF cosF : ℚ → ℚ) (noise : ℕ → ℚ)
    (sr : ℚ) (arrangement : Arrangement) (params : DynamicParameters)
    (mp1 mp2 : ℚ) (k : ℕ)
    (hnone : ∀ p ∈ arrangement.tracks, p.2.2.pitch = none) :
    synthesizeArrangementPrivate sinF cosF noise sr arrangement
      { params with master_pitch := mp1 } k =
    synthesizeArrangementPrivate sinF cosF noise sr arrangement
      { params with master_pitch := mp2 } k := by
  unfold synthesizeArrangementPrivate prenormBuffer
  dsimp only
  rw [renderTracks_master_pitch sinF cosF noise sr params mp1 mp2
    arrangement.tracks _ hnone]

/-- A one-note square-wave track used by the C8 witness. -/
def trkM8 : MelodyTrack :=
  { name := "m".toList
    instrument := { Instrument.base with source := .Synthesized .Square, volume := 1 }
    sequence := [.Note ⟨2, 1, 1, none, none⟩]
    tempo := 60
    length := 1
    loop_point := none
    time_signature := (4, 4)
    swing := 0 }

/-- A one-track arrangement with no overrides, for the C8 witness. -/
def arrM8 : Arrangement :=
  ⟨"a".toList, [(trkM8, 0, TrackOverrides.base)], 1, none, none, none, none⟩

/-- C8 witness: a concrete one-track arrangement without pitch overrides,
rendered under master pitches 1 and 2. -/
theorem c8_master_pitch_witness :
    (∀ p ∈ arrM8.tracks, p.2.2.pitch = none) ∧
    synthesizeArrangementPrivate (fun _ => 0) (fun _ => 0) (fun _ => 0) 4 arrM8
      { DynamicParameters.base with master_pitch := 1 } 0 =
    synthesizeArrangementPrivate (fun _ => 0) (fun _ => 0) (fun _ => 0) 4 arrM8
      { DynamicParameters.base with master_pitch := 2 } 0 :=
  ⟨by decide,
   c8_master_pitch_no_effect (fun _ => 0) (fun _ => 0) (fun _ => 0) 4 arrM8
     DynamicParameters.base 1 2 0 (by decide)⟩

end Boomie
